import Mathlib

/-!
Verification of the DragAct accessible drag-and-drop widget (src/script.js).

The development shallowly embeds the two algorithmic cores of the script:

* the locale negotiator (`#getSubcodes`, `#doScoreSort`, `#getLanguageMatch`) and the
  locale-table validator (`DragAct.i18n`), working over character lists exactly as the
  JavaScript works over strings; and
* the selection/transfer state machine (`#addSelection`, `#removeSelection`,
  `#clearSelections`, `#addSelectionRange`, `#doSelectionThing`, `#doDropThing`), as a
  record of the selection data plus the per-container item lists, with a step relation
  describing the mutations performed by the input-event handlers.

Purely presentational behaviour (CSS classes, ARIA description text, scrolling,
animation, timers) has no bearing on the verified properties and is not modelled.
-/

namespace DragAct

/-- JS `code.split('-')`: split a character list at every hyphen. -/
def splitHyphen : List Char → List (List Char)
  | [] => [[]]
  | c :: rest =>
    match splitHyphen rest with
    | [] => []
    | seg :: segs => if c = '-' then [] :: seg :: segs else (c :: seg) :: segs

/-- JS `segs.join('-')`. -/
def joinHyphen : List (List Char) → List Char
  | [] => []
  | [s] => s
  | s :: rest => s ++ '-' :: joinHyphen rest

/-- The truncation loop of `#getSubcodes` (src/script.js 200-206), with explicit fuel
so that it is structurally recursive: starting from the given segments, repeatedly drop
the final hyphen-separated segment, collecting each non-empty joined code.  One unit of
fuel is spent per loop iteration; `segs.length + 1` units always suffice because each
iteration removes a segment and the loop stops on the empty code. -/
def subchainAux : Nat → List (List Char) → List (List Char)
  | 0, _ => []
  | fuel + 1, segs =>
    if joinHyphen segs = [] then []
    else joinHyphen segs :: subchainAux fuel segs.dropLast

def subchainC (segs : List (List Char)) : List (List Char) :=
  subchainAux (segs.length + 1) segs

/-- `#getSubcodes` (src/script.js 198-206): parse a language code into its matchable
subcodes, e.g. "en-gb-cockney" into ["en-gb-cockney","en-gb","en"]. -/
def getSubcodes (code : String) : List String :=
  (subchainC (splitHyphen code.data)).map String.mk

/-- Does the first character list start with the second one? -/
def startsWithC : List Char → List Char → Bool
  | _, [] => true
  | [], _ :: _ => false
  | c :: cs, d :: ds => c = d && startsWithC cs ds

/-- Does the first character list contain the second as a contiguous run? -/
def containsC : List Char → List Char → Bool
  | [], t => startsWithC [] t
  | c :: cs, t => startsWithC (c :: cs) t || containsC cs t

/-- JS `s.includes(t)`: substring containment. -/
def strIncludes (s t : String) : Bool :=
  containsC s.data t.data

/-- One scored candidate, as built by `#getLanguageMatch`: a score together with the
`have` language code it refers to. -/
structure ScoreEntry where
  score : Nat
  «have» : String
deriving DecidableEq

/-- The sort comparator of `#doScoreSort` (src/script.js 218-225) as a strict order:
`scoreBefore a b` holds exactly when the comparator returns a negative number, i.e.
when `a` must be placed strictly before `b` (higher score first; on equal scores the
shorter `have` string first). -/
def scoreBefore (a b : ScoreEntry) : Bool :=
  if a.score = b.score then a.«have».length < b.«have».length
  else b.score < a.score

def sortInsert (x : ScoreEntry) : List ScoreEntry → List ScoreEntry
  | [] => [x]
  | y :: ys => if scoreBefore x y then x :: y :: ys else y :: sortInsert x ys

/-- `#doScoreSort` (src/script.js 218-225): stable sort by highest score, with equal
scores ordered by shortest `have` string.  A stable insertion sort models the
ECMAScript stable `Array.prototype.sort`: each element is inserted after any element
it does not strictly precede. -/
def doScoreSort (scores : List ScoreEntry) : List ScoreEntry :=
  scores.foldl (fun acc x => sortInsert x acc) []

/-- JS `scores.length ? scores[0].score : 0` (src/script.js 167). -/
def headScore : List ScoreEntry → Nat
  | [] => 0
  | sc :: _ => sc.score

/-- The innermost map of `#getLanguageMatch` (src/script.js 159-165): score one wanted
subcode against one available subcode. -/
def scoreHaveSub (subcode havesubcode : String) : ScoreEntry :=
  { score := if strIncludes subcode havesubcode then havesubcode.length else 0
    «have» := havesubcode }

/-- The middle map of `#getLanguageMatch` (src/script.js 157-171): score one wanted
subcode against all the subcodes of one available language, keeping the best score and
the full available code (`havesubcodes[0]`; the source leaves `have` undefined when the
subcode list is empty, which only happens for a blank available code). -/
def scoreHaveCode (subcode : String) (havesubcodes : List String) : ScoreEntry :=
  { score := headScore (doScoreSort (havesubcodes.map (scoreHaveSub subcode)))
    «have» := havesubcodes.headD "" }

/-- One member of the `scoresets` array of `#getLanguageMatch` (src/script.js 155-174). -/
def scoreSubcode (havecodes : List (List String)) (subcode : String) : String × List ScoreEntry :=
  (subcode, doScoreSort (havecodes.map (scoreHaveCode subcode)))

/-- One member of the `matches` array of `#getLanguageMatch` (src/script.js 144-185):
`scoresets[0].scores[0]` indexed by the wanted code.  The source would fail on a blank
wanted code (empty subcode list); callers discard blank codes before negotiation. -/
def matchFor (havecodes : List (List String)) (code : String) : String × Option ScoreEntry :=
  match (getSubcodes code).map (scoreSubcode havecodes) with
  | [] => (code, none)
  | (_, scores) :: _ =>
    match scores with
    | [] => (code, none)
    | m :: _ => (code, some m)

/-- The default language code: the first key of the built-in language table
(src/script.js 48). -/
def langdefault : String := "en"

/-- `#getLanguageMatch` (src/script.js 123-196): the closest matching code in the
available language data, from a list of wanted codes in order of precedence, falling
back to the default code when nothing matches. -/
def getLanguageMatch (want «have» : List String) : String :=
  let havecodes := «have».map getSubcodes
  let matchlist := (want.map (matchFor havecodes)).filter (fun m =>
    match m.2 with
    | some e => e.score != 0
    | none => false)
  match matchlist with
  | [] => langdefault
  | m :: _ =>
    match m.2 with
    | some e => e.«have»
    | none => langdefault

/-- The best score an available code earns against one wanted subcode: the maximum,
over the available code's own subcodes, of that subcode's length when the wanted
subcode contains it (and zero otherwise). -/
def matchScore (w a : String) : Nat :=
  ((getSubcodes a).map (fun sub => if strIncludes w sub then sub.length else 0)).foldl
    (fun m x => max m x) 0

/-- JS `String.prototype.trim`. -/
def jsTrim (s : String) : String :=
  String.mk (((s.data.dropWhile Char.isWhitespace).reverse.dropWhile Char.isWhitespace).reverse)

/-- JS `String.prototype.toLowerCase` (ASCII, which covers the language codes used). -/
def jsToLower (s : String) : String :=
  String.mk (s.data.map Char.toLower)

/-- A language table: the entries of one JS locale object (keys are distinct in a JS
object; lookups take the first matching entry). -/
abbrev LangTable := List (String × String)

/-- The locale registry: `DragAct.#language`, keyed by lower-cased BCP47 code. -/
abbrev Registry := List (String × LangTable)

/-- JS `strings[key]`, defaulting to the empty string (the source never looks up a
missing key: every key it consults comes from the object itself). -/
def tableLookup (tbl : LangTable) (k : String) : String :=
  match tbl.find? (fun e => e.1 == k) with
  | some e => e.2
  | none => ""

/-- The expected keys of a language table: the keys of the built-in default table
(src/script.js 17-49). -/
def langkeys : List String :=
  ["role-description", "selection-notes", "empty-notes", "drop-notes", "sort-notes",
   "sort-number", "selected-items", "dropped-items", "item-single", "item-plural"]

def tokenRole : String := "\x7b\x7brole\x7d\x7d"

def tokenNumber : String := "\x7b\x7bnumber\x7d\x7d"

def tokenCount : String := "\x7b\x7bcount\x7d\x7d"

def tokenItems : String := "\x7b\x7bitems\x7d\x7d"

/-- The validation failures that `DragAct.i18n` raises as exceptions
(src/script.js 64-119). -/
inductive I18nError where
  | emptyCode
  | missingKeys
  | invalidValues
  | missingTokens
deriving DecidableEq

/-- JS object property assignment `reg[code] = strings`: overwrite an existing entry or
append a new one. -/
def registrySet (reg : Registry) (code : String) (strings : LangTable) : Registry :=
  if reg.any (fun e => e.1 == code) then
    reg.map (fun e => if e.1 == code then (e.1, strings) else e)
  else reg ++ [(code, strings)]

/-- The per-table body of `DragAct.i18n` (src/script.js 65-118): validate one language
table and either report the first failing check or save the filtered table under the
lower-cased code. -/
def i18nOne (reg : Registry) (code : String) (strings0 : LangTable) :
    Except I18nError Registry :=
  if jsTrim code = "" then .error .emptyCode
  else
    let strings := strings0.filter (fun e => langkeys.contains e.1)
    let keys := strings.map (fun e => e.1)
    let missing := langkeys.filter (fun expected => !(keys.contains expected))
    if missing.isEmpty = false then .error .missingKeys
    else
      let invalid := keys.filter (fun key => jsTrim (tableLookup strings key) = "")
      if invalid.isEmpty = false then .error .invalidValues
      else
        let notokens := keys.filter (fun key =>
          if key == "role-description" then !(strIncludes (tableLookup strings key) tokenRole)
          else if key == "sort-number" then !(strIncludes (tableLookup strings key) tokenNumber)
          else if !(key == "selected-items" || key == "dropped-items") then false
          else !(strIncludes (tableLookup strings key) tokenCount)
            || !(strIncludes (tableLookup strings key) tokenItems))
        if notokens.isEmpty = false then .error .missingTokens
        else .ok (registrySet reg (jsToLower code) strings)

/-- `DragAct.i18n` (src/script.js 64-119): validate and register each supplied table in
turn.  A thrown exception aborts the loop: tables registered by earlier iterations
remain registered, and the failing table is not saved, so the result carries the
registry as of the failure together with the error. -/
def i18n (reg : Registry) : List (String × LangTable) → Registry × Option I18nError
  | [] => (reg, none)
  | (code, strings) :: rest =>
    match i18nOne reg code strings with
    | .error e => (reg, some e)
    | .ok reg2 => i18n reg2 rest

/-! ## The selection and transfer state machine

Items and containers are identified by opaque ids.  One `DragState` holds, for a single
widget instance, the per-container item lists in node order (the `#collection`
dictionary together with the live tree), each item's selected state (its
`data-drag-state` attribute), each container's `aria-activedescendant` and
`data-drag-lastdescendant` attributes, and the `#selection` record.  Each item's
`aria-disabled` attribute is fixed in a `World`: the temporary disabling that
`#addDragValid` applies to non-owner containers is always undone by `#clearDragValid`
before any selection attempt can reach those items, so the flag the selection methods
observe is the item's own one. -/

abbrev Iid := Nat

abbrev Cid := Nat

structure World where
  disabled : Iid → Bool

/-- The `#selection` record (src/script.js 318-323). -/
structure Selection where
  dragitems : List Iid
  owner : Option Cid
  droptarget : Option Cid
  nodesort : Bool

/-- The mutable state of one widget instance that the selection and transfer methods
read and write. -/
structure DragState where
  collection : List (Cid × List Iid)
  selected : Iid → Bool
  activedescendant : Cid → Option Iid
  lastdescendant : Cid → Option Iid
  selection : Selection

/-- The node-ordered item list of a container (empty for an unknown id). -/
def itemsOf (s : DragState) (c : Cid) : List Iid :=
  (List.lookup c s.collection).getD []

/-- The success path of `#addSelection` (src/script.js 1032-1042): mark the item
selected, append it to the selection items array, and set the node-order sorting
flag. -/
def pushSelection (s : DragState) (dragitem : Iid) (owner : Cid) : DragState :=
  { s with
    selected := fun i => if i = dragitem then true else s.selected i
    selection := { s.selection with
      dragitems := s.selection.dragitems ++ [dragitem]
      owner := some owner
      nodesort := true } }

/-- `#addSelection` (src/script.js 1013-1064) for a single instance: refuse disabled
items, adopt the owner when unset, refuse a different owner, and otherwise select the
item.  (The cross-instance eviction on lines 1047-1063 involves the process-wide
instance reference and is modelled by `addSelectionPair`; with a single instance that
branch never runs.) -/
def addSelection (w : World) (s : DragState) (dragitem : Iid) (owner : Cid) : DragState :=
  if w.disabled dragitem then s
  else
    match s.selection.owner with
    | none => pushSelection s dragitem owner
    | some o => if o = owner then pushSelection s dragitem owner else s

/-- `#removeSelection` (src/script.js 1112-1148): unmark the item, filter it out of the
selection items array, and reset the sorting flag when the selection empties.  (The
`droptarget` argument of the source only chooses which attribute name to clear.) -/
def removeSelection (s : DragState) (dragitem : Iid) : DragState :=
  { s with
    selected := fun i => if i = dragitem then false else s.selected i
    selection := { s.selection with
      dragitems := s.selection.dragitems.filter (fun item => item ≠ dragitem)
      nodesort :=
        if (s.selection.dragitems.filter (fun item => item ≠ dragitem)).isEmpty then true
        else s.selection.nodesort } }

/-- `#clearSelections` (src/script.js 1152-1167): nothing to do when no items are
selected; otherwise remove-selection every member of the (captured) items array and
reset the owner reference. -/
def clearSelections (s : DragState) : DragState :=
  if s.selection.dragitems.isEmpty then s
  else
    let s2 := s.selection.dragitems.foldl (fun st it => removeSelection st it) s
    { s2 with selection := { s2.selection with owner := none } }

/-- JS `dragitems.findIndex(di => item === di)` (src/script.js 1082): the index of the
item, or `-1` when it is absent. -/
def jsFindIndex : List Iid → Iid → Int
  | [], _ => -1
  | y :: ys, x =>
    if y = x then 0
    else
      let r := jsFindIndex ys x
      if r < 0 then -1 else r + 1

/-- The body of the range-compilation loop of `#addSelectionRange`, iterated a fixed
number of times. -/
def rangeLoopAux (l : List Iid) : Nat → Int → List (Option Iid)
  | 0, _ => []
  | k + 1, n => (if n < 0 then none else l.get? n.toNat) :: rangeLoopAux l k (n + 1)

/-- The range-compilation loop of `#addSelectionRange` (src/script.js 1088-1091):
`for(n = t0; n <= t1; n++) range.push(dragitems[n])`, where a negative index yields the
JS `undefined`, modelled as `none`.  The loop runs once per integer in `[n, t1]`. -/
def rangeLoop (l : List Iid) (n t1 : Int) : List (Option Iid) :=
  rangeLoopAux l (t1 + 1 - n).toNat n

/-- The re-selection loop of `#addSelectionRange` (src/script.js 1105-1107): pass each
range member to `#addSelection`.  A `none` entry is the JS `undefined` produced by a
missing range boundary: there the source throws from inside `#addSelection`, leaving
the state as already mutated, so the fold stops. -/
def foldAddRange (w : World) (c : Cid) : List (Option Iid) → DragState → DragState
  | [], s => s
  | none :: _, s => s
  | some i :: rest, s => foldAddRange w c rest (addSelection w s i c)

/-- The tail of `#addSelectionRange` (src/script.js 1096-1107) applied to a compiled
range: the range members are first filtered out of the selection items array so that
re-adding them cannot create duplicates, then every range member is re-selected. -/
def rangeApply (w : World) (s : DragState) (droptarget : Cid)
    (rng : List (Option Iid)) : DragState :=
  foldAddRange w droptarget rng { s with selection := { s.selection with
    dragitems := s.selection.dragitems.filter (fun item => !(rng.contains (some item))) } }

/-- `#addSelectionRange` (src/script.js 1068-1108): select every item between the
container's previous and current active descendants, reversed when the previous
boundary sits later in node order. -/
def addSelectionRange (w : World) (s : DragState) (droptarget : Cid) : DragState :=
  let dragitems := itemsOf s droptarget
  let range : List (Option Iid) :=
    [s.lastdescendant droptarget, s.activedescendant droptarget].map (fun attr =>
      attr.bind (fun a => dragitems.find? (fun item => item == a)))
  let b0 : Int := match range.headD none with
    | some item => jsFindIndex dragitems item
    | none => -1
  let b1 : Int := match (range.drop 1).headD none with
    | some item => jsFindIndex dragitems item
    | none => -1
  let rng0 := rangeLoop dragitems (min b0 b1) (max b0 b1)
  let rng := if b1 < b0 then rng0.reverse else rng0
  rangeApply w s droptarget rng

/-- `#doSelectionThing` (src/script.js 1352-1430): translate a multimode signal into a
selection mutation.  Multimode 2 is contiguous selection, 1 is non-contiguous
toggling, and anything else (the `default` switch branch) is exclusive single
selection. -/
def doSelectionThing (w : World) (s : DragState) (droptarget : Cid) (dragitem : Iid)
    (multimode : Nat) : DragState :=
  match multimode with
  | 2 =>
    let s2 := if s.selected dragitem = false then addSelection w s dragitem droptarget else s
    addSelectionRange w s2 droptarget
  | 1 =>
    if s.selected dragitem = true then
      let s2 := removeSelection s dragitem
      if s2.selection.dragitems.isEmpty then
        { s2 with selection := { s2.selection with owner := none } }
      else s2
    else addSelection w s dragitem droptarget
  | _ =>
    let single := s.selection.dragitems.length == 1 && s.selection.dragitems.contains dragitem
    let s2 := clearSelections s
    if single then s2 else addSelection w s2 dragitem droptarget

/-- The attribute-removal loop at the start of the drop branch of `#doDropThing`
(src/script.js 1447-1449). -/
def removeFlags (s : DragState) : DragState :=
  s.selection.dragitems.foldl
    (fun st it => { st with selected := fun i => if i = it then false else st.selected i }) s

/-- The `appendages` array of `#doDropThing` (src/script.js 1453-1477): the moved items
in insertion order — the owner's node order when the sorting flag is set, the selection
order otherwise. -/
def dropAppendages (s : DragState) (owner : Cid) : List Iid :=
  if s.selection.nodesort then
    (itemsOf s owner).filter (fun it => s.selection.dragitems.contains it)
  else s.selection.dragitems

/-- The DOM effect of the `appendChild` calls of `#doDropThing`: each appended node
leaves its current parent and lands at the end of the droptarget's insertion parent. -/
def moveItems (s : DragState) (droptarget : Cid) (app : List Iid) : DragState :=
  { s with collection := s.collection.map (fun e =>
      (e.1,
        if e.1 = droptarget then e.2.filter (fun it => !(app.contains it)) ++ app
        else e.2.filter (fun it => !(app.contains it)))) }

/-- The rebuild loop body of `#doDropThing` (src/script.js 1517-1528) for one
container: recompute the collection entry (already reflected in `collection`) and set
the active descendant — the last item when this is the droptarget of a move or a
same-container sort, the first item otherwise, clearing it (but not the remembered
last descendant, which `#getDroptarget` does not touch for an empty container) when the
container ended up empty. -/
def rebuildTarget (s : DragState) (owner droptarget c : Cid) : DragState :=
  let its := itemsOf s c
  match its with
  | [] => { s with activedescendant := fun x => if x = c then none else s.activedescendant x }
  | i0 :: _ =>
    let desc := if droptarget = owner ∨ c ≠ owner then its.getLast? else none
    let a := desc.getD i0
    { s with
      activedescendant := fun x => if x = c then some a else s.activedescendant x
      lastdescendant := fun x => if x = c then some a else s.lastdescendant x }

/-- `#doDropThing` (src/script.js 1434-1556).  Returns `none` exactly where the source
would throw: the drop branch dereferences the selection owner, so a pending droptarget
with no owner is an error, not a result.  (That state is unreachable through the
handlers, which only set the droptarget during an active selection.)  Otherwise the
result pairs the final state with the source's boolean return value.  When the
droptarget is set: move the selected items to its insertion parent in the chosen
order, rebuild the owner's and the droptarget's entries, clear all selections, reset
the droptarget reference, and report `true`; when it is unset, report `false` and
change nothing. -/
def doDropThing (s : DragState) : Option (DragState × Bool) :=
  match s.selection.droptarget with
  | none => some (s, false)
  | some droptarget =>
    match s.selection.owner with
    | none => none
    | some owner =>
      let s1 := removeFlags s
      let app := dropAppendages s1 owner
      let s2 := moveItems s1 droptarget app
      let s3 := [owner, droptarget].foldl (fun st c => rebuildTarget st owner droptarget c) s2
      let s4 := clearSelections s3
      some ({ s4 with selection := { s4.selection with droptarget := none } }, true)

/-- Run `#doDropThing` for its state effect.  Where the source throws (`none`), the
exception propagates out of the event handler before any mutation has happened (the
null dereference is the first access in both failing positions), so the state is
unchanged. -/
def runDrop (s : DragState) : DragState :=
  match doDropThing s with
  | some (s2, _) => s2
  | none => s

/-- The Ctrl/Cmd+A handler body (src/script.js 2345-2358): empty the selection items
array, then select every item of the container in node order. -/
def selectAllItemsOp (w : World) (s : DragState) (droptarget : Cid) : DragState :=
  let dragitems := itemsOf s droptarget
  let s2 := { s with selection := { s.selection with dragitems := [] } }
  dragitems.foldl (fun st it => addSelection w st it droptarget) s2

/-- `#activeUpdate` (src/script.js 901-920): when the item differs from the current
active descendant, remember the current one and, if the item belongs to the
container's collection, make it the new active descendant. -/
def activeUpdate (s : DragState) (droptarget : Cid) (dragitem : Iid) : DragState :=
  if s.activedescendant droptarget = some dragitem then s
  else
    let s1 := { s with lastdescendant := fun c =>
      if c = droptarget then s.activedescendant droptarget else s.lastdescendant c }
    if (itemsOf s1 droptarget).contains dragitem then
      { s1 with activedescendant := fun c =>
        if c = droptarget then some dragitem else s1.activedescendant c }
    else s1

/-- Set the pending droptarget and sorting flag before a drop, as the mouseup handler
(src/script.js 1915-1922) and the keyboard sort handler (src/script.js 2433-2439) do. -/
def setDrop (s : DragState) (c : Cid) (nodesort : Bool) : DragState :=
  { s with selection := { s.selection with droptarget := some c, nodesort := nodesort } }

/-- Set the pending droptarget without touching the sorting flag, as the keyboard
Enter/Ctrl+V handler (src/script.js 2398-2400) does. -/
def setDropKeepSort (s : DragState) (c : Cid) : DragState :=
  { s with selection := { s.selection with droptarget := some c } }

/-- The droptarget fixup in the native drop handler (src/script.js 2161-2171): record
whether this is a sort drop, and when it is but no droptarget was entered, fall back to
the owner so a same-container sort completes. -/
def nativeDropPrep (s : DragState) (sorted : Bool) : DragState :=
  let s1 := { s with selection := { s.selection with nodesort := !sorted } }
  if sorted ∧ s1.selection.droptarget = none then
    { s1 with selection := { s1.selection with droptarget := s1.selection.owner } }
  else s1

/-- One transition of a single widget instance: the selection/transfer mutations that
the pointer, native-drag and keyboard event handlers of src/script.js can perform.
Attribute-only effects (drag-valid marking, descriptions, classes, focus, scrolling)
do not change this state.  Guards record what the handlers establish before calling
the corresponding private method: an item passed together with its own container, a
pending droptarget that is a registered container, and the owner/emptiness tests the
handlers make. -/
inductive Step (w : World) : DragState → DragState → Prop where
  | selectionThing (s : DragState) (c : Cid) (i : Iid) (mm : Nat)
      (hmem : i ∈ itemsOf s c) :
      Step w s (doSelectionThing w s c i mm)
  | selectAllItems (s : DragState) (c : Cid) (a : Iid)
      (hact : s.activedescendant c = some a)
      (hown : s.selection.owner = none ∨ s.selection.owner = some c)
      (hlen : s.selection.dragitems.length < (itemsOf s c).length) :
      Step w s (selectAllItemsOp w s c)
  | pointerDrop (s : DragState) (c : Cid) (sorted : Bool)
      (hkey : (List.lookup c s.collection).isSome)
      (hne : s.selection.dragitems ≠ [])
      (hg : s.selection.owner ≠ some c ∨ sorted = true) :
      Step w s (runDrop (setDrop s c (sorted = false)))
  | keyEnterDrop (s : DragState) (c : Cid) (o : Cid)
      (hkey : (List.lookup c s.collection).isSome)
      (hown : s.selection.owner = some o) (hne : c ≠ o) :
      Step w s (runDrop (setDropKeepSort s c))
  | keySortDrop (s : DragState) (c : Cid) (o : Cid)
      (hkey : (List.lookup c s.collection).isSome)
      (hown : s.selection.owner = some o) :
      Step w s (runDrop (setDrop s c false))
  | dragLeaveSet (s : DragState) (t : Option Cid)
      (ht : t = none ∨ ∃ c, t = some c ∧ (List.lookup c s.collection).isSome ∧
        s.selection.owner ≠ some c) :
      Step w s { s with selection := { s.selection with droptarget := t } }
  | nativeDrop (s : DragState) (sorted : Bool) :
      Step w s (runDrop (nativeDropPrep s sorted))
  | clearAll (s : DragState) :
      Step w s (clearSelections s)
  | navUpdate (s : DragState) (c : Cid) (i : Iid) :
      Step w s (activeUpdate s c i)

/-- The state a freshly constructed instance reaches after scanning its containers
(src/script.js 429-545): nothing selected, no owner or pending droptarget, node-order
sorting, and each non-empty container's active and last descendants initialised to its
first item (src/script.js 702-709). -/
def initState (cs : List (Cid × List Iid)) : DragState :=
  { collection := cs
    selected := fun _ => false
    activedescendant := fun c => ((List.lookup c cs).getD []).head?
    lastdescendant := fun c => ((List.lookup c cs).getD []).head?
    selection := { dragitems := [], owner := none, droptarget := none, nodesort := true } }

/-- The containers handed to an instance at construction: the item lists are node
lists of a tree, so each list has no duplicates and no node sits in two containers
(entries with the same id would be the same container). -/
def WellFormedCollection (cs : List (Cid × List Iid)) : Prop :=
  (∀ e ∈ cs, e.2.Nodup) ∧
  cs.Pairwise (fun e e2 => e.1 = e2.1 ∨ ∀ i ∈ e.2, i ∉ e2.2)

/-- Reachability for one widget instance: any sequence of handler transitions from the
given state. -/
def Reachable (w : World) (s0 s : DragState) : Prop :=
  Relation.ReflTransGen (Step w) s0 s

/-- The inductive invariant of the selection state machine.  Parts 1 and 2 are the
selection invariant of the specification; part 3 is the no-duplicates property; the
remaining parts support them: selected items are never disabled, the selected flag
mirrors membership of the selection items array, each container's item list is
duplicate-free, the item lists of distinct containers are disjoint, the active and
last descendants of a non-empty container are members of it, and a pending droptarget
is a registered container. -/
def Inv (w : World) (s : DragState) : Prop :=
  (s.selection.dragitems = [] ↔ s.selection.owner = none) ∧
  (∀ o, s.selection.owner = some o → ∀ i ∈ s.selection.dragitems, i ∈ itemsOf s o) ∧
  s.selection.dragitems.Nodup ∧
  (∀ i ∈ s.selection.dragitems, w.disabled i = false) ∧
  (∀ i, s.selected i = true ↔ i ∈ s.selection.dragitems) ∧
  (∀ c, (itemsOf s c).Nodup) ∧
  (∀ c c2, c ≠ c2 → ∀ i, i ∈ itemsOf s c → i ∉ itemsOf s c2) ∧
  (∀ c, itemsOf s c ≠ [] → ∃ a, s.lastdescendant c = some a ∧ a ∈ itemsOf s c) ∧
  (∀ c, itemsOf s c ≠ [] → ∃ a, s.activedescendant c = some a ∧ a ∈ itemsOf s c) ∧
  (∀ c, s.selection.droptarget = some c → (List.lookup c s.collection).isSome)

/-! ## Two instances and the process-wide drag-instance reference

`DragAct.#draginstance` (src/script.js 255) is shared by all instances.  For the
arbitration property two instances suffice; they live on disjoint parts of the page,
so each keeps its own `DragState`. -/

/-- Two widget instances plus the process-wide `#draginstance` reference, identifying
an instance by a boolean. -/
structure DragPair where
  inst0 : DragState
  inst1 : DragState
  draginstance : Option Bool

def instOf (g : DragPair) (who : Bool) : DragState :=
  if who then g.inst1 else g.inst0

def setInst (g : DragPair) (who : Bool) (s : DragState) : DragPair :=
  if who then { g with inst1 := s } else { g with inst0 := s }

/-- `#removeSelection` at the pair level: its final branch (src/script.js 1134-1147)
resets the shared `#draginstance` reference when this instance's selection empties. -/
def removeSelectionPair (g : DragPair) (who : Bool) (dragitem : Iid) : DragPair :=
  let s := removeSelection (instOf g who) dragitem
  let g2 := setInst g who s
  if s.selection.dragitems.isEmpty then { g2 with draginstance := none } else g2

/-- `#clearSelections` at the pair level (src/script.js 1152-1167). -/
def clearSelectionsPair (g : DragPair) (who : Bool) : DragPair :=
  if (instOf g who).selection.dragitems.isEmpty then g
  else
    let g2 := (instOf g who).selection.dragitems.foldl
      (fun h it => removeSelectionPair h who it) g
    setInst g2 who
      { instOf g2 who with selection := { (instOf g2 who).selection with owner := none } }

/-- The eviction branch of `#addSelection` (src/script.js 1047-1060): the holding
instance clears its drag-valid markers and descriptions (attribute-only) and then
resets all of its selections. -/
def evictInstance (g : DragPair) (other : Bool) : DragPair :=
  clearSelectionsPair g other

/-- `#addSelection` (src/script.js 1013-1064) at the pair level: the selection
mutation of the acting instance, then — on the success path only — eviction of any
other instance holding the `#draginstance` reference, and finally the claim of that
reference for the acting instance. -/
def addSelectionPair (w : World) (g : DragPair) (who : Bool) (dragitem : Iid)
    (owner : Cid) : DragPair :=
  let s := instOf g who
  if w.disabled dragitem then g
  else if s.selection.owner = none ∨ s.selection.owner = some owner then
    let g1 := setInst g who (pushSelection s dragitem owner)
    let g2 :=
      match g1.draginstance with
      | some other => if other = who then g1 else evictInstance g1 other
      | none => g1
    { g2 with draginstance := some who }
  else g

/-! ## Concrete fixtures

Small concrete worlds and states used to evaluate the machine on the inputs named by
the testable properties.  Items: A = 10, B = 11, C = 12, D = 13; containers 0 and 1. -/

/-- A world where no item is disabled. -/
def wAll : World := { disabled := fun _ => false }

/-- Containers for the transfer-ordering property: source 0 holds [A,B,C] and
destination 1 holds one unrelated item 20. -/
def csTransfer : List (Cid × List Iid) := [(0, [10, 11, 12]), (1, [20])]

/-- Selection [C,A] in selection order from container 0, with container 1 pending as
the droptarget, under the given ordering flag. -/
def sTransfer (nodesort : Bool) : DragState :=
  { collection := csTransfer
    selected := fun i => i == 12 || i == 10
    activedescendant := fun c => if c = 0 then some 10 else if c = 1 then some 20 else none
    lastdescendant := fun c => if c = 0 then some 10 else if c = 1 then some 20 else none
    selection := { dragitems := [12, 10], owner := some 0, droptarget := some 1,
                   nodesort := nodesort } }

/-- A single container 0 holding [A,B,C,D] with nothing selected and the given active
history. -/
def sRange (lastactive active : Iid) : DragState :=
  { collection := [(0, [10, 11, 12, 13])]
    selected := fun _ => false
    activedescendant := fun c => if c = 0 then some active else none
    lastdescendant := fun c => if c = 0 then some lastactive else none
    selection := { dragitems := [], owner := none, droptarget := none, nodesort := true } }

/-- A locale table with every expected key except "item-plural". -/
def tblMissing : LangTable :=
  [("role-description", "\x7b\x7brole\x7d\x7d dnd"), ("selection-notes", "sel"),
   ("empty-notes", "emp"), ("drop-notes", "drop"), ("sort-notes", "sort"),
   ("sort-number", "#\x7b\x7bnumber\x7d\x7d"),
   ("selected-items", "\x7b\x7bcount\x7d\x7d \x7b\x7bitems\x7d\x7d checked."),
   ("dropped-items", "\x7b\x7bcount\x7d\x7d \x7b\x7bitems\x7d\x7d dropped."),
   ("item-single", "item")]

/-- A complete locale table whose "selected-items" template lacks its placeholder
tokens. -/
def tblNoTokens : LangTable :=
  [("role-description", "\x7b\x7brole\x7d\x7d dnd"), ("selection-notes", "sel"),
   ("empty-notes", "emp"), ("drop-notes", "drop"), ("sort-notes", "sort"),
   ("sort-number", "#\x7b\x7bnumber\x7d\x7d"), ("selected-items", "some checked."),
   ("dropped-items", "\x7b\x7bcount\x7d\x7d \x7b\x7bitems\x7d\x7d dropped."),
   ("item-single", "item"), ("item-plural", "items")]

/-- Container 0 = [A,B,C,D] (items 10-13) with only A (item 10) selected. -/
def sExclusive : DragState :=
  { sRange 10 12 with
    selected := fun i => i == 10
    selection := { dragitems := [10], owner := some 0, droptarget := none, nodesort := true } }

/-- A pair of instances: instance `false` (A) owns container 0 with item 10 selected
and holds the drag-instance reference; instance `true` (B) is idle on container 1. -/
def gPair : DragPair :=
  { inst0 :=
      { collection := [(0, [10, 11])]
        selected := fun i => i == 10
        activedescendant := fun c => if c = 0 then some 10 else none
        lastdescendant := fun c => if c = 0 then some 10 else none
        selection := { dragitems := [10], owner := some 0, droptarget := none,
                       nodesort := true } }
    inst1 := initState [(1, [20, 21])]
    draginstance := some false }

/-! ## Fuel adequacy for the subcode chain -/

theorem subchainAux_congr (f : Nat) : ∀ (segs : List (List Char)) (g : Nat),
    segs.length < f → segs.length < g → subchainAux f segs = subchainAux g segs := by
  induction f with
  | zero => intro segs g h; omega
  | succ f ih =>
    intro segs g hf hg
    match g, hg with
    | g + 1, hg =>
      by_cases hj : joinHyphen segs = []
      · simp [subchainAux, hj]
      · have hne : segs ≠ [] := by
          intro hc
          rw [hc] at hj
          exact hj rfl
        have hlen : 0 < segs.length := List.length_pos.mpr hne
        have hd : segs.dropLast.length = segs.length - 1 := List.length_dropLast segs
        simp only [subchainAux, if_neg hj]
        rw [ih segs.dropLast g (by omega) (by omega)]

theorem subchainC_unfold (segs : List (List Char)) :
    subchainC segs =
      if joinHyphen segs = [] then []
      else joinHyphen segs :: subchainC segs.dropLast := by
  by_cases hj : joinHyphen segs = []
  · simp [subchainC, subchainAux, hj]
  · have hne : segs ≠ [] := by
      intro hc
      rw [hc] at hj
      exact hj rfl
    have hlen : 0 < segs.length := List.length_pos.mpr hne
    have hd : segs.dropLast.length = segs.length - 1 := List.length_dropLast segs
    have h1 : subchainC segs =
        if joinHyphen segs = [] then []
        else joinHyphen segs :: subchainAux segs.length segs.dropLast := rfl
    rw [h1, if_neg hj, if_neg hj]
    congr 1
    exact subchainAux_congr segs.length segs.dropLast (segs.dropLast.length + 1)
      (by omega) (by omega)

/-! ## Locale negotiation: the concrete properties (claims C1 and C3-style vectors) -/

/-- C1 counterexample: the negotiator, given wanted list ["en-gb-cockney"] and
available codes ["en-us-fake-cockney", "en"], does not return "en-us-fake-cockney":
both candidates earn score 2 for the "en" base, and the tie-break of `#doScoreSort`
prefers the shorter available code. -/
theorem negotiate_cockney_counterexample :
    getLanguageMatch ["en-gb-cockney"] ["en-us-fake-cockney", "en"] ≠
      "en-us-fake-cockney" := by
  decide

/-- C1 amended: the negotiator, given wanted ["en-gb-cockney"] and availables
{"en-us-fake-cockney","en"} (either enumeration order), returns "en"; only when "en"
is not available does it fall back to "en-us-fake-cockney". -/
theorem negotiate_cockney :
    getLanguageMatch ["en-gb-cockney"] ["en-us-fake-cockney", "en"] = "en" ∧
    getLanguageMatch ["en-gb-cockney"] ["en", "en-us-fake-cockney"] = "en" ∧
    getLanguageMatch ["en-gb-cockney"] ["en-us-fake-cockney"] = "en-us-fake-cockney" :=
  ⟨by decide, by decide, by decide⟩

/-! ## Transfer ordering and range selection (claims C3 and C4) -/

/-- C3: dropping the selection [C,A] (selection order, items 12 and 10) taken from a
source whose node order is [A,B,C] appends [A,C] to the destination under the
node-order policy (`nodesort = true`) and [C,A] under the selection-order policy
(`nodesort = false`); in both cases only B remains in the source. -/
theorem transfer_ordering :
    itemsOf (runDrop (sTransfer true)) 1 = [20, 10, 12] ∧
    itemsOf (runDrop (sTransfer true)) 0 = [11] ∧
    itemsOf (runDrop (sTransfer false)) 1 = [20, 12, 10] ∧
    itemsOf (runDrop (sTransfer false)) 0 = [11] :=
  ⟨by decide, by decide, by decide, by decide⟩

/-- C4: in a container with node order [A,B,C,D] (items 10,11,12,13), a contiguous
selection action with focus history (lastActive = A, active = C) selects [A,B,C] in
collection order, and with history (lastActive = C, active = A) it selects the same
items in reversed collection order [C,B,A]. -/
theorem range_selection_direction :
    (doSelectionThing wAll (sRange 10 12) 0 12 2).selection.dragitems = [10, 11, 12] ∧
    (doSelectionThing wAll (sRange 12 10) 0 10 2).selection.dragitems = [12, 11, 10] :=
  ⟨by decide, by decide⟩

/-! ## The general tie-break of the negotiator (claim C7) -/

theorem splitHyphen_ne_nil : ∀ (cs : List Char), splitHyphen cs ≠ [] := by
  intro cs
  induction cs with
  | nil => simp [splitHyphen]
  | cons c rest ih =>
    simp only [splitHyphen]
    match hs : splitHyphen rest with
    | [] => exact absurd hs ih
    | seg :: segs =>
      by_cases hc : c = '-' <;> simp [hc]

theorem joinHyphen_cons_cons (c : Char) (s : List Char) (segs : List (List Char)) :
    joinHyphen ((c :: s) :: segs) = c :: joinHyphen (s :: segs) := by
  cases segs <;> rfl

theorem joinHyphen_splitHyphen : ∀ (cs : List Char), joinHyphen (splitHyphen cs) = cs := by
  intro cs
  induction cs with
  | nil => rfl
  | cons c rest ih =>
    simp only [splitHyphen]
    match hs : splitHyphen rest with
    | [] => exact absurd hs (splitHyphen_ne_nil rest)
    | seg :: segs =>
      rw [hs] at ih
      show joinHyphen (if c = '-' then [] :: seg :: segs else (c :: seg) :: segs)
        = c :: rest
      by_cases hc : c = '-'
      · subst hc
        rw [if_pos rfl]
        show '-' :: joinHyphen (seg :: segs) = '-' :: rest
        rw [ih]
      · rw [if_neg hc, joinHyphen_cons_cons, ih]

theorem getSubcodes_head (a : String) (ha : a ≠ "") :
    ∃ t, getSubcodes a = a :: t := by
  have hdata : a.data ≠ [] := by
    intro hc
    exact ha (Eq.symm (String.ext (id (Eq.symm hc))))
  have hjoin : joinHyphen (splitHyphen a.data) = a.data := joinHyphen_splitHyphen a.data
  refine ⟨(subchainC (splitHyphen a.data).dropLast).map String.mk, ?_⟩
  unfold getSubcodes
  rw [subchainC_unfold, hjoin, if_neg hdata, List.map_cons]

theorem headScore_sortInsert (x : ScoreEntry) (acc : List ScoreEntry) :
    headScore (sortInsert x acc) = max x.score (headScore acc) := by
  cases acc with
  | nil => simp [sortInsert, headScore]
  | cons y ys =>
    simp only [sortInsert]
    by_cases hb : scoreBefore x y
    · rw [if_pos hb]
      simp only [headScore]
      unfold scoreBefore at hb
      by_cases hs : x.score = y.score
      · rw [hs]
        simp
      · rw [if_neg hs] at hb
        have : y.score < x.score := by simpa using hb
        omega
    · rw [if_neg hb]
      simp only [headScore]
      unfold scoreBefore at hb
      by_cases hs : x.score = y.score
      · rw [hs]
        simp
      · rw [if_neg hs] at hb
        have : ¬(y.score < x.score) := by simpa using hb
        omega

theorem headScore_foldl (l : List ScoreEntry) : ∀ (acc : List ScoreEntry),
    headScore (l.foldl (fun acc x => sortInsert x acc) acc)
      = l.foldl (fun m e => max m e.score) (headScore acc) := by
  induction l with
  | nil => intro acc; rfl
  | cons x l ih =>
    intro acc
    simp only [List.foldl_cons]
    rw [ih (sortInsert x acc), headScore_sortInsert]
    congr 1
    omega

theorem headScore_doScoreSort (l : List ScoreEntry) :
    headScore (doScoreSort l) = l.foldl (fun m e => max m e.score) 0 := by
  unfold doScoreSort
  rw [headScore_foldl]
  rfl

theorem scoreHaveCode_eq (wsub a : String) (ha : a ≠ "") :
    scoreHaveCode wsub (getSubcodes a) =
      { score := matchScore wsub a, «have» := a } := by
  obtain ⟨t, ht⟩ := getSubcodes_head a ha
  unfold scoreHaveCode
  congr 1
  · rw [headScore_doScoreSort, List.foldl_map]
    unfold matchScore
    rw [List.foldl_map]
    rfl
  · rw [ht]
    rfl

theorem getLanguageMatch_head (w : String) (hv : List String) (t : List String)
    (m : ScoreEntry) (r : List ScoreEntry)
    (ht : getSubcodes w = w :: t)
    (hm : doScoreSort ((hv.map getSubcodes).map (scoreHaveCode w)) = m :: r)
    (hnz : m.score ≠ 0) :
    getLanguageMatch [w] hv = m.«have» := by
  have hmf : matchFor (hv.map getSubcodes) w = (w, some m) := by
    simp only [matchFor, ht, List.map_cons, scoreSubcode]
    rw [hm]
  have hb : (m.score != 0) = true := by
    simpa using hnz
  simp only [getLanguageMatch, List.map_cons, List.map_nil, hmf, List.filter_cons,
    List.filter_nil, hb]
  rfl

/-- C7: when two available tags earn the same nonzero match score for a wanted tag,
negotiation prefers the shorter of the two, whichever way round they are supplied; in
particular (witness) negotiate(["fr-ca"], {"fr-be","fr"}) returns "fr". -/
theorem shorter_available_tag_wins (w a1 a2 : String)
    (hw : w ≠ "") (h1 : a1 ≠ "") (h2 : a2 ≠ "")
    (hs : matchScore w a1 = matchScore w a2)
    (hnz : matchScore w a1 ≠ 0)
    (hlen : a1.length < a2.length) :
    getLanguageMatch [w] [a1, a2] = a1 ∧ getLanguageMatch [w] [a2, a1] = a1 := by
  obtain ⟨t, ht⟩ := getSubcodes_head w hw
  have hc1 : scoreHaveCode w (getSubcodes a1)
      = { score := matchScore w a1, «have» := a1 } := scoreHaveCode_eq w a1 h1
  have hc2 : scoreHaveCode w (getSubcodes a2)
      = { score := matchScore w a1, «have» := a2 } := by
    rw [scoreHaveCode_eq w a2 h2, hs]
  have hbef21 : scoreBefore { score := matchScore w a1, «have» := a2 }
      { score := matchScore w a1, «have» := a1 } = false := by
    unfold scoreBefore
    rw [if_pos rfl]
    simpa using Nat.le_of_lt hlen
  have hbef12 : scoreBefore { score := matchScore w a1, «have» := a1 }
      { score := matchScore w a1, «have» := a2 } = true := by
    unfold scoreBefore
    rw [if_pos rfl]
    simpa using hlen
  constructor
  · refine getLanguageMatch_head w [a1, a2] t
      { score := matchScore w a1, «have» := a1 }
      [{ score := matchScore w a1, «have» := a2 }] ht ?_ hnz
    simp only [List.map_cons, List.map_nil, hc1, hc2]
    show sortInsert { score := matchScore w a1, «have» := a2 }
      (sortInsert { score := matchScore w a1, «have» := a1 } []) = _
    simp only [sortInsert, hbef21]
    rfl
  · refine getLanguageMatch_head w [a2, a1] t
      { score := matchScore w a1, «have» := a1 }
      [{ score := matchScore w a1, «have» := a2 }] ht ?_ hnz
    simp only [List.map_cons, List.map_nil, hc1, hc2]
    show sortInsert { score := matchScore w a1, «have» := a1 }
      (sortInsert { score := matchScore w a1, «have» := a2 } []) = _
    simp only [sortInsert, hbef12]
    rfl

/-- C7 witness: the negotiator prefers "fr" over "fr-be" for wanted "fr-ca" — both
score 2 — in either enumeration order of the available set. -/
theorem shorter_available_tag_wins_witness :
    getLanguageMatch ["fr-ca"] ["fr", "fr-be"] = "fr" ∧
    getLanguageMatch ["fr-ca"] ["fr-be", "fr"] = "fr" :=
  shorter_available_tag_wins "fr-ca" "fr" "fr-be" (by decide) (by decide) (by decide)
    (by decide) (by decide) (by decide)

/-! ## Characterisations of the removal and addition folds -/

theorem foldRemove_spec (l : List Iid) : ∀ (s : DragState),
    ((l.foldl (fun st it => removeSelection st it) s).collection = s.collection) ∧
    ((l.foldl (fun st it => removeSelection st it) s).activedescendant
      = s.activedescendant) ∧
    ((l.foldl (fun st it => removeSelection st it) s).lastdescendant
      = s.lastdescendant) ∧
    ((l.foldl (fun st it => removeSelection st it) s).selection.droptarget
      = s.selection.droptarget) ∧
    ((l.foldl (fun st it => removeSelection st it) s).selection.owner
      = s.selection.owner) ∧
    ((l.foldl (fun st it => removeSelection st it) s).selection.dragitems
      = s.selection.dragitems.filter (fun x => !(l.contains x))) ∧
    (∀ j, (l.foldl (fun st it => removeSelection st it) s).selected j
      = if l.contains j then false else s.selected j) := by
  induction l with
  | nil =>
    intro s
    refine ⟨rfl, rfl, rfl, rfl, rfl, ?_, fun j => by simp⟩
    simp
  | cons it l ih =>
    intro s
    obtain ⟨h1, h2, h3, h4, h5, h6, h7⟩ := ih (removeSelection s it)
    simp only [List.foldl_cons]
    refine ⟨h1, h2, h3, h4, h5, ?_, ?_⟩
    · rw [h6]
      show (s.selection.dragitems.filter (fun item => item ≠ it)).filter
          (fun x => !(l.contains x)) = _
      rw [List.filter_filter]
      apply List.filter_congr
      intro x _
      by_cases hx : x = it
      · subst hx
        simp
      · simp [hx, List.contains_cons]
    · intro j
      rw [h7 j]
      by_cases hj : j = it
      · subst hj
        by_cases hc : l.contains j <;> simp [hc, removeSelection, List.contains_cons]
      · by_cases hc : l.contains j <;>
          simp [hc, removeSelection, hj, List.contains_cons, Ne.symm hj]

theorem clearSelections_spec (s : DragState) :
    ((clearSelections s).collection = s.collection) ∧
    ((clearSelections s).activedescendant = s.activedescendant) ∧
    ((clearSelections s).lastdescendant = s.lastdescendant) ∧
    ((clearSelections s).selection.droptarget = s.selection.droptarget) ∧
    ((clearSelections s).selection.dragitems = []) ∧
    ((clearSelections s).selection.owner
      = if s.selection.dragitems.isEmpty then s.selection.owner else none) ∧
    (∀ j, (clearSelections s).selected j
      = if s.selection.dragitems.contains j then false else s.selected j) := by
  by_cases he : s.selection.dragitems.isEmpty
  · have hnil : s.selection.dragitems = [] := by
      simpa [List.isEmpty_iff] using he
    refine ⟨by simp [clearSelections, he], by simp [clearSelections, he],
      by simp [clearSelections, he], by simp [clearSelections, he], ?_, ?_, ?_⟩
    · simp [clearSelections, he, hnil]
    · simp [clearSelections, he]
    · intro j
      simp [clearSelections, he, hnil]
  · obtain ⟨h1, h2, h3, h4, h5, h6, h7⟩ := foldRemove_spec s.selection.dragitems s
    refine ⟨by simp [clearSelections, he, h1], by simp [clearSelections, he, h2],
      by simp [clearSelections, he, h3], by simp [clearSelections, he, h4], ?_, ?_, ?_⟩
    · simp only [clearSelections, if_neg he]
      show (s.selection.dragitems.foldl (fun st it => removeSelection st it)
        s).selection.dragitems = []
      rw [h6]
      refine List.filter_eq_nil_iff.mpr ?_
      intro a ha
      simp only [Bool.not_eq_true', Bool.not_eq_false]
      exact List.elem_eq_true_of_mem ha
    · simp [clearSelections, he]
    · intro j
      simp only [clearSelections, if_neg he]
      exact h7 j

theorem addSelection_disabled (w : World) (s : DragState) (i : Iid) (c : Cid)
    (h : w.disabled i = true) : addSelection w s i c = s := by
  simp [addSelection, h]

theorem addSelection_push (w : World) (s : DragState) (i : Iid) (c : Cid)
    (h : w.disabled i = false)
    (ho : s.selection.owner = none ∨ s.selection.owner = some c) :
    addSelection w s i c = pushSelection s i c := by
  rcases ho with ho | ho <;> simp [addSelection, h, ho]

theorem addSelection_mismatch (w : World) (s : DragState) (i : Iid) (c o : Cid)
    (ho : s.selection.owner = some o) (hne : o ≠ c) :
    addSelection w s i c = s := by
  by_cases hd : w.disabled i <;> simp [addSelection, hd, ho, hne]

theorem foldAdd_spec (w : World) (c : Cid) (l : List Iid) : ∀ (s : DragState),
    (s.selection.owner = none ∨ s.selection.owner = some c) →
    ((l.foldl (fun st it => addSelection w st it c) s).collection = s.collection) ∧
    ((l.foldl (fun st it => addSelection w st it c) s).activedescendant
      = s.activedescendant) ∧
    ((l.foldl (fun st it => addSelection w st it c) s).lastdescendant
      = s.lastdescendant) ∧
    ((l.foldl (fun st it => addSelection w st it c) s).selection.droptarget
      = s.selection.droptarget) ∧
    ((l.foldl (fun st it => addSelection w st it c) s).selection.dragitems
      = s.selection.dragitems ++ l.filter (fun i => !(w.disabled i))) ∧
    ((l.foldl (fun st it => addSelection w st it c) s).selection.owner
      = if l.filter (fun i => !(w.disabled i)) = [] then s.selection.owner else some c) ∧
    (∀ j, (l.foldl (fun st it => addSelection w st it c) s).selected j
      = if (l.filter (fun i => !(w.disabled i))).contains j then true else s.selected j) ∧
    ((l.foldl (fun st it => addSelection w st it c) s).selection.nodesort
      = if l.filter (fun i => !(w.disabled i)) = [] then s.selection.nodesort else true) := by
  induction l with
  | nil =>
    intro s _
    exact ⟨rfl, rfl, rfl, rfl, by simp, by simp, fun j => by simp, by simp⟩
  | cons i l ih =>
    intro s ho
    by_cases hd : w.disabled i
    · have hstep : addSelection w s i c = s := addSelection_disabled w s i c hd
      have hfil : (i :: l).filter (fun i => !(w.disabled i))
          = l.filter (fun i => !(w.disabled i)) := by
        simp [List.filter_cons, hd]
      obtain ⟨h1, h2, h3, h4, h5, h6, h7, h8⟩ := ih s ho
      simp only [List.foldl_cons, hstep, hfil]
      exact ⟨h1, h2, h3, h4, h5, h6, h7, h8⟩
    · have hd2 : w.disabled i = false := by simpa using hd
      have hstep : addSelection w s i c = pushSelection s i c :=
        addSelection_push w s i c hd2 ho
      have hfil : (i :: l).filter (fun i => !(w.disabled i))
          = i :: l.filter (fun i => !(w.disabled i)) := by
        simp [List.filter_cons, hd2]
      have ho2 : (pushSelection s i c).selection.owner = none ∨
          (pushSelection s i c).selection.owner = some c := by
        right
        rfl
      obtain ⟨h1, h2, h3, h4, h5, h6, h7, h8⟩ := ih (pushSelection s i c) ho2
      simp only [List.foldl_cons, hstep, hfil]
      refine ⟨h1, h2, h3, h4, ?_, ?_, ?_, ?_⟩
      · rw [h5]
        show s.selection.dragitems ++ [i] ++ _ = _
        simp
      · rw [h6]
        by_cases hl : l.filter (fun i => !(w.disabled i)) = [] <;>
          simp [hl, pushSelection]
      · intro j
        rw [h7 j]
        by_cases hji : j = i
        · subst hji
          by_cases hc : (l.filter (fun i => !(w.disabled i))).contains j <;>
            simp [hc, pushSelection, List.contains_cons]
        · by_cases hc : (l.filter (fun i => !(w.disabled i))).contains j <;>
            simp [hc, pushSelection, List.contains_cons, hji, Ne.symm hji]
      · rw [h8]
        by_cases hl : l.filter (fun i => !(w.disabled i)) = [] <;>
          simp [hl, pushSelection]

/-! ## Exclusive single selection (claim C5) -/

theorem eq_singleton_of_length_one_of_mem {l : List Iid} {x : Iid}
    (hlen : l.length = 1) (hx : x ∈ l) : l = [x] := by
  obtain ⟨a, ha⟩ := List.length_eq_one.mp hlen
  subst ha
  simp only [List.mem_singleton] at hx
  subst hx
  rfl

/-- C5: under the EXCLUSIVE multimode (the `default` branch of `#doSelectionThing`),
a selection action on an enabled item X when X is the sole current selection leaves the
selection empty with no owner; a selection action on X when the current selection is
anything else leaves exactly X selected in the acted-on container.  The hypothesis
`hinv` is part of the selection invariant (an empty selection has no owner), which
holds in every reachable state. -/
theorem exclusive_selection (w : World) (s : DragState) (c : Cid) (x : Iid)
    (hdis : w.disabled x = false)
    (hinv : s.selection.dragitems = [] → s.selection.owner = none) :
    (s.selection.dragitems = [x] →
      (doSelectionThing w s c x 0).selection.dragitems = [] ∧
      (doSelectionThing w s c x 0).selection.owner = none) ∧
    (s.selection.dragitems ≠ [x] →
      (doSelectionThing w s c x 0).selection.dragitems = [x] ∧
      (doSelectionThing w s c x 0).selection.owner = some c) := by
  have hunfold : doSelectionThing w s c x 0 =
      (if (s.selection.dragitems.length == 1 && s.selection.dragitems.contains x) then
        clearSelections s
      else addSelection w (clearSelections s) x c) := rfl
  obtain ⟨k1, k2, k3, k4, k5, k6, k7⟩ := clearSelections_spec s
  have howner : (clearSelections s).selection.owner = none := by
    rw [k6]
    by_cases he : s.selection.dragitems.isEmpty
    · simp only [if_pos he]
      exact hinv (by simpa [List.isEmpty_iff] using he)
    · simp [he]
  constructor
  · intro h
    have hsingle : (s.selection.dragitems.length == 1 && s.selection.dragitems.contains x)
        = true := by
      rw [h]
      simp
    rw [hunfold, if_pos hsingle]
    exact ⟨k5, howner⟩
  · intro h
    have hsingle : (s.selection.dragitems.length == 1 && s.selection.dragitems.contains x)
        = false := by
      by_contra hb
      have hb2 := eq_true_of_ne_false fun hf => hb hf
      simp only [Bool.and_eq_true, beq_iff_eq] at hb2
      exact h (eq_singleton_of_length_one_of_mem hb2.1
        (List.mem_of_elem_eq_true hb2.2))
    rw [hunfold, hsingle]
    simp only [Bool.false_eq_true, if_false]
    rw [addSelection_push w (clearSelections s) x c hdis (Or.inl howner)]
    refine ⟨?_, rfl⟩
    show (clearSelections s).selection.dragitems ++ [x] = [x]
    rw [k5]
    rfl

/-- C5 witness: in the concrete container [A,B,C,D] with only A selected, an exclusive
action on A empties the selection, and an exclusive action on B when A is selected
leaves exactly B selected. -/
theorem exclusive_selection_witness :
    (doSelectionThing wAll sExclusive 0 10 0).selection.dragitems = [] ∧
    (doSelectionThing wAll sExclusive 0 11 0).selection.dragitems = [11] := by
  constructor
  · exact ((exclusive_selection wAll sExclusive 0 10 (by decide) (by decide)).1
      (by decide)).1
  · exact ((exclusive_selection wAll sExclusive 0 11 (by decide) (by decide)).2
      (by decide)).1

/-! ## The drop return contract (claim C8) -/

/-- C8: `#doDropThing` returns `false` exactly when the pending droptarget is unset at
the time of the call, and in that case the whole state — item lists, selection items,
owner, ordering policy — is unchanged; when the pending droptarget is set it returns
`true`.  The hypothesis rules out the broken configuration (droptarget set, owner
unset) in which the source throws instead of returning: the handlers only set the
droptarget while a selection, and hence an owner, exists. -/
theorem drop_return_contract (s : DragState)
    (h : s.selection.owner ≠ none ∨ s.selection.droptarget = none) :
    ∃ s2 b, doDropThing s = some (s2, b) ∧
      (b = false ↔ s.selection.droptarget = none) ∧
      (s.selection.droptarget = none → s2 = s) := by
  match hdt : s.selection.droptarget with
  | none =>
    refine ⟨s, false, ?_, by simp, fun _ => rfl⟩
    simp [doDropThing, hdt]
  | some d =>
    have ho : s.selection.owner ≠ none := by
      rcases h with h | h
      · exact h
      · rw [h] at hdt
        exact absurd hdt (by simp)
    match how : s.selection.owner with
    | none => exact absurd how ho
    | some o =>
      have hmap : (doDropThing s).map Prod.snd = some true := by
        simp [doDropThing, hdt, how]
      cases hdd : doDropThing s with
      | none =>
        rw [hdd] at hmap
        exact absurd hmap (by simp)
      | some p =>
        obtain ⟨s2, b⟩ := p
        rw [hdd] at hmap
        have hb : b = true := by
          simpa using hmap
        subst hb
        exact ⟨s2, true, rfl, by simp [hdt], by simp [hdt]⟩

/-- C8 witness: with no pending droptarget, the drop reports `false` and leaves the
state untouched. -/
theorem drop_return_contract_witness :
    ∃ s2 b, doDropThing (sRange 10 12) = some (s2, b) ∧
      (b = false ↔ (sRange 10 12).selection.droptarget = none) ∧
      ((sRange 10 12).selection.droptarget = none → s2 = sRange 10 12) :=
  drop_return_contract (sRange 10 12) (Or.inr rfl)

/-! ## Locale-table validation (claim C9) -/

/-- The value found for an expected key does not change when a table is filtered down
to the expected keys. -/
theorem tableLookup_filter (k : String) (hk : langkeys.contains k = true) :
    ∀ (tbl : LangTable),
      tableLookup (tbl.filter (fun e => langkeys.contains e.1)) k = tableLookup tbl k := by
  intro tbl
  induction tbl with
  | nil => rfl
  | cons e t ih =>
    rw [List.filter_cons]
    by_cases hkeep : langkeys.contains e.1 = true
    · rw [if_pos (by rw [hkeep])]
      simp only [tableLookup, List.find?]
      cases he : e.1 == k
      · exact ih
      · rfl
    · have he : (e.1 == k) = false := by
        cases hq : e.1 == k
        · rfl
        · exact absurd (by rw [beq_iff_eq.mp hq]; exact hk) hkeep
      rw [if_neg (by rw [Bool.not_eq_true] at hkeep; rw [hkeep]; exact Bool.false_ne_true)]
      rw [ih]
      simp only [tableLookup, List.find?, he]

/-- C9: registering a single locale table that is missing one of the required keys, or
whose count templates ("selected-items" / "dropped-items") lack one of their required
placeholder tokens, reports a configuration error and leaves the locale registry
exactly as it was — in particular with no entry, and no partial entry, for that tag. -/
theorem i18n_validation (reg : Registry) (code : String) (tbl : LangTable)
    (h : (∃ k, k ∈ langkeys ∧ k ∉ tbl.map Prod.fst) ∨
         (∃ key, (key = "selected-items" ∨ key = "dropped-items") ∧
           (strIncludes (tableLookup tbl key) tokenCount = false ∨
            strIncludes (tableLookup tbl key) tokenItems = false))) :
    (i18n reg [(code, tbl)]).2 ≠ none ∧ (i18n reg [(code, tbl)]).1 = reg := by
  have herr : ∃ e, i18nOne reg code tbl = Except.error e := by
    cases hE : i18nOne reg code tbl with
    | error e => exact ⟨e, rfl⟩
    | ok reg2 =>
      exfalso
      simp only [i18nOne] at hE
      split at hE
      · exact Except.noConfusion hE
      · split at hE
        · exact Except.noConfusion hE
        · split at hE
          · exact Except.noConfusion hE
          · split at hE
            · exact Except.noConfusion hE
            · -- all four checks passed; refute either branch of `h`
              rename_i h0 hm hi hn
              rw [Bool.not_eq_false, List.isEmpty_iff, List.filter_eq_nil_iff] at hm hn
              rcases h with ⟨k, hk, hknot⟩ | ⟨key, hkey, htok⟩
              · have hmem : k ∈ (tbl.filter (fun e => langkeys.contains e.1)).map
                    (fun e => e.1) := by
                  simpa using hm k hk
                obtain ⟨e, hef, hek⟩ := List.mem_map.mp hmem
                exact hknot (List.mem_map.mpr ⟨e, List.mem_of_mem_filter hef, hek⟩)
              · have hkeyin : key ∈ langkeys := by
                  rcases hkey with rfl | rfl <;> decide
                have hkc : langkeys.contains key = true :=
                  List.elem_eq_true_of_mem hkeyin
                have hmem : key ∈ (tbl.filter (fun e => langkeys.contains e.1)).map
                    (fun e => e.1) := by
                  simpa using hm key hkeyin
                have hnk := hn key hmem
                rw [tableLookup_filter key hkc tbl] at hnk
                rcases hkey with rfl | rfl
                · rw [if_neg (by decide), if_neg (by decide), if_neg (by decide)] at hnk
                  rcases htok with ht | ht
                  · rw [ht] at hnk
                    exact hnk rfl
                  · rw [ht] at hnk
                    exact hnk (Bool.or_true _)
                · rw [if_neg (by decide), if_neg (by decide), if_neg (by decide)] at hnk
                  rcases htok with ht | ht
                  · rw [ht] at hnk
                    exact hnk rfl
                  · rw [ht] at hnk
                    exact hnk (Bool.or_true _)
  obtain ⟨e, he⟩ := herr
  constructor
  · simp [i18n, he]
  · simp [i18n, he]

/-- C9 witness: a table missing "item-plural", and a complete table whose
"selected-items" template lacks its tokens, both error out on an empty registry and
leave it empty. -/
theorem i18n_validation_witness :
    ((i18n [] [("xx", tblMissing)]).2 ≠ none ∧ (i18n [] [("xx", tblMissing)]).1 = []) ∧
    ((i18n [] [("xx", tblNoTokens)]).2 ≠ none ∧ (i18n [] [("xx", tblNoTokens)]).1 = []) :=
  ⟨i18n_validation [] "xx" tblMissing (Or.inl ⟨"item-plural", by decide, by decide⟩),
   i18n_validation [] "xx" tblNoTokens
     (Or.inr ⟨"selected-items", Or.inl rfl, Or.inl (by decide)⟩)⟩

/-! ## Cross-instance arbitration (claim C6) -/

theorem instOf_setInst_same (g : DragPair) (who : Bool) (s : DragState) :
    instOf (setInst g who s) who = s := by
  cases who <;> simp [instOf, setInst]

theorem instOf_setInst_other (g : DragPair) (who who2 : Bool) (s : DragState)
    (h : who2 ≠ who) : instOf (setInst g who s) who2 = instOf g who2 := by
  cases who <;> cases who2 <;> simp_all [instOf, setInst]

theorem draginstance_setInst (g : DragPair) (who : Bool) (s : DragState) :
    (setInst g who s).draginstance = g.draginstance := by
  cases who <;> simp [setInst]

theorem instOf_withDraginstance (g : DragPair) (d : Option Bool) (who : Bool) :
    instOf { g with draginstance := d } who = instOf g who := by
  cases who <;> rfl

theorem foldRemovePair_spec (other : Bool) (l : List Iid) : ∀ (g : DragPair),
    ((l.foldl (fun h it => removeSelectionPair h other it) g).draginstance
      = if (instOf g other).selection.dragitems.filter (fun x => !(l.contains x)) = []
          ∧ l ≠ [] then none
        else g.draginstance) ∧
    (instOf (l.foldl (fun h it => removeSelectionPair h other it) g) other
      = l.foldl (fun st it => removeSelection st it) (instOf g other)) ∧
    (∀ who2, who2 ≠ other →
      instOf (l.foldl (fun h it => removeSelectionPair h other it) g) who2
        = instOf g who2) := by
  induction l with
  | nil =>
    intro g
    refine ⟨by simp, rfl, fun who2 _ => rfl⟩
  | cons it l ih =>
    intro g
    obtain ⟨ih1, ih2, ih3⟩ := ih (removeSelectionPair g other it)
    have hstep : instOf (removeSelectionPair g other it) other
        = removeSelection (instOf g other) it := by
      by_cases he : (removeSelection (instOf g other) it).selection.dragitems.isEmpty <;>
        simp [removeSelectionPair, he, instOf_setInst_same, instOf_withDraginstance]
    have hstepo : ∀ who2, who2 ≠ other →
        instOf (removeSelectionPair g other it) who2 = instOf g who2 := by
      intro who2 hw
      by_cases he : (removeSelection (instOf g other) it).selection.dragitems.isEmpty <;>
        simp [removeSelectionPair, he, instOf_setInst_other _ _ _ _ hw,
          instOf_withDraginstance]
    have hitems1 : (removeSelection (instOf g other) it).selection.dragitems
        = (instOf g other).selection.dragitems.filter (fun x => x ≠ it) := rfl
    have hstepd : (removeSelectionPair g other it).draginstance
        = if (instOf g other).selection.dragitems.filter (fun x => x ≠ it) = []
          then none else g.draginstance := by
      by_cases he : (removeSelection (instOf g other) it).selection.dragitems.isEmpty
      · have he2 : (instOf g other).selection.dragitems.filter (fun x => x ≠ it) = [] := by
          rw [← hitems1]
          exact List.isEmpty_iff.mp he
        simp only [removeSelectionPair]
        rw [if_pos he, if_pos he2]
      · have he2 : ¬((instOf g other).selection.dragitems.filter (fun x => x ≠ it) = []) := by
          rw [← hitems1]
          intro hc
          exact he (List.isEmpty_iff.mpr hc)
        simp only [removeSelectionPair]
        rw [if_neg he, if_neg he2, draginstance_setInst]
    have hff : ((instOf g other).selection.dragitems.filter (fun x => x ≠ it)).filter
        (fun x => !(l.contains x))
        = (instOf g other).selection.dragitems.filter
          (fun x => !((it :: l).contains x)) := by
      rw [List.filter_filter]
      apply List.filter_congr
      intro x _
      by_cases hx : x = it
      · subst hx
        simp
      · simp [hx, List.contains_cons]
    refine ⟨?_, ?_, ?_⟩
    · simp only [List.foldl_cons]
      rw [ih1, hstep, hstepd, hitems1, hff]
      by_cases hempty : (instOf g other).selection.dragitems.filter
          (fun x => !((it :: l).contains x)) = []
      · rw [if_pos (show (instOf g other).selection.dragitems.filter
            (fun x => !((it :: l).contains x)) = [] ∧ (it :: l) ≠ [] from
            ⟨hempty, List.cons_ne_nil it l⟩)]
        by_cases hl : l = []
        · subst hl
          rw [if_neg (show ¬((instOf g other).selection.dragitems.filter
              (fun x => !(([it] : List Iid).contains x)) = [] ∧ ([] : List Iid) ≠ []) from
              fun hc => hc.2 rfl)]
          have h1 : (instOf g other).selection.dragitems.filter (fun x => x ≠ it) = [] := by
            rw [← hempty]
            apply List.filter_congr
            intro x _
            by_cases hx : x = it <;> simp [hx, List.contains_cons]
          rw [if_pos h1]
        · rw [if_pos (show (instOf g other).selection.dragitems.filter
            (fun x => !((it :: l).contains x)) = [] ∧ l ≠ [] from ⟨hempty, hl⟩)]
      · rw [if_neg (show ¬((instOf g other).selection.dragitems.filter
            (fun x => !((it :: l).contains x)) = [] ∧ (it :: l) ≠ []) from
            fun hc => hempty hc.1)]
        rw [if_neg (show ¬((instOf g other).selection.dragitems.filter
            (fun x => !((it :: l).contains x)) = [] ∧ l ≠ []) from
            fun hc => hempty hc.1)]
        have h1 : ¬((instOf g other).selection.dragitems.filter (fun x => x ≠ it) = []) := by
          intro hc
          apply hempty
          rw [← hff, hc]
          rfl
        rw [if_neg h1]
    · simp only [List.foldl_cons]
      rw [ih2, hstep]
    · intro who2 hw
      simp only [List.foldl_cons]
      rw [ih3 who2 hw, hstepo who2 hw]

theorem clearSelectionsPair_spec (g : DragPair) (other : Bool)
    (hne : (instOf g other).selection.dragitems ≠ []) :
    (instOf (clearSelectionsPair g other) other).selection.dragitems = [] ∧
    (instOf (clearSelectionsPair g other) other).selection.owner = none ∧
    (clearSelectionsPair g other).draginstance = none ∧
    (∀ who2, who2 ≠ other →
      instOf (clearSelectionsPair g other) who2 = instOf g who2) := by
  have hie : ((instOf g other).selection.dragitems.isEmpty) = false := by
    rw [← Bool.not_eq_true, List.isEmpty_iff]
    exact hne
  obtain ⟨f1, f2, f3⟩ := foldRemovePair_spec other (instOf g other).selection.dragitems g
  obtain ⟨r1, r2, r3, r4, r5, r6, r7⟩ :=
    foldRemove_spec (instOf g other).selection.dragitems (instOf g other)
  have hfilter : (instOf g other).selection.dragitems.filter
      (fun x => !((instOf g other).selection.dragitems.contains x)) = [] := by
    refine List.filter_eq_nil_iff.mpr ?_
    intro a ha
    simp only [Bool.not_eq_true', Bool.not_eq_false]
    exact List.elem_eq_true_of_mem ha
  refine ⟨?_, ?_, ?_, ?_⟩
  · simp only [clearSelectionsPair, hie, Bool.false_eq_true, if_false]
    rw [instOf_setInst_same]
    show (instOf (List.foldl (fun h it => removeSelectionPair h other it) g
      (instOf g other).selection.dragitems) other).selection.dragitems = []
    rw [f2, r6]
    exact hfilter
  · simp only [clearSelectionsPair, hie, Bool.false_eq_true, if_false]
    rw [instOf_setInst_same]
  · simp only [clearSelectionsPair, hie, Bool.false_eq_true, if_false]
    rw [draginstance_setInst, f1]
    rw [if_pos ⟨hfilter, hne⟩]
  · intro who2 hw
    simp only [clearSelectionsPair, hie, Bool.false_eq_true, if_false]
    rw [instOf_setInst_other _ _ _ _ hw]
    exact f3 who2 hw

/-- C6: when instance B makes a successful selection while the process-wide
drag-instance reference is held by a different instance A, A's selection is emptied
and its owner cleared, the reference itself is released by A's clearing pass before
B's claim is written (fourth conjunct: the eviction leaves the reference `none`), and
afterwards the reference points to B.  The hypothesis `hA` is the selection invariant
of instance A (an empty selection has no owner); `hdis` and `hown` make B's selection
successful rather than a silent no-op. -/
theorem arbiter_eviction (w : World) (g : DragPair) (a b : Bool) (item : Iid) (c : Cid)
    (hab : a ≠ b)
    (harb : g.draginstance = some a)
    (hdis : w.disabled item = false)
    (hown : (instOf g b).selection.owner = none ∨ (instOf g b).selection.owner = some c)
    (hA : (instOf g a).selection.dragitems = [] → (instOf g a).selection.owner = none) :
    (instOf (addSelectionPair w g b item c) a).selection.dragitems = [] ∧
    (instOf (addSelectionPair w g b item c) a).selection.owner = none ∧
    (addSelectionPair w g b item c).draginstance = some b ∧
    ((instOf g a).selection.dragitems ≠ [] →
      (evictInstance (setInst g b (pushSelection (instOf g b) item c)) a).draginstance
        = none) := by
  have hdr1 : (setInst g b (pushSelection (instOf g b) item c)).draginstance = some a := by
    rw [draginstance_setInst]
    exact harb
  have hinstA : instOf (setInst g b (pushSelection (instOf g b) item c)) a
      = instOf g a := instOf_setInst_other _ _ _ _ hab
  have hbranch : (match (setInst g b (pushSelection (instOf g b) item c)).draginstance with
      | some other =>
        if other = b then setInst g b (pushSelection (instOf g b) item c)
        else evictInstance (setInst g b (pushSelection (instOf g b) item c)) other
      | none => setInst g b (pushSelection (instOf g b) item c))
      = evictInstance (setInst g b (pushSelection (instOf g b) item c)) a := by
    rw [hdr1]
    show (if a = b then setInst g b (pushSelection (instOf g b) item c)
      else evictInstance (setInst g b (pushSelection (instOf g b) item c)) a) = _
    rw [if_neg hab]
  have hunfold : addSelectionPair w g b item c =
      { evictInstance (setInst g b (pushSelection (instOf g b) item c)) a with
        draginstance := some b } := by
    simp only [addSelectionPair]
    rw [if_neg (show ¬(w.disabled item = true) from by
      rw [hdis]; exact Bool.false_ne_true)]
    rw [if_pos hown, hbranch]
  rw [hunfold]
  by_cases hAne : (instOf g a).selection.dragitems = []
  · -- A's selection is already empty: the eviction's clearing pass is a no-op
    have hclear : evictInstance (setInst g b (pushSelection (instOf g b) item c)) a
        = setInst g b (pushSelection (instOf g b) item c) := by
      simp only [evictInstance, clearSelectionsPair]
      rw [if_pos (show (instOf (setInst g b (pushSelection (instOf g b) item c))
        a).selection.dragitems.isEmpty = true from by rw [hinstA, hAne]; rfl)]
    refine ⟨?_, ?_, rfl, fun hc => absurd hAne hc⟩
    · rw [instOf_withDraginstance, hclear, hinstA, hAne]
    · rw [instOf_withDraginstance, hclear, hinstA]
      exact hA hAne
  · obtain ⟨e1, e2, e3, e4⟩ := clearSelectionsPair_spec
      (setInst g b (pushSelection (instOf g b) item c)) a (by rw [hinstA]; exact hAne)
    refine ⟨?_, ?_, rfl, fun _ => e3⟩
    · rw [instOf_withDraginstance]
      exact e1
    · rw [instOf_withDraginstance]
      exact e2

/-- C6 witness: in the concrete pair where instance A (`false`) holds item 10 of
container 0 and the drag-instance reference, a successful selection of item 20 in
container 1 by instance B (`true`) empties A's selection, clears its owner, releases
the reference during eviction, and leaves the reference pointing at B. -/
theorem arbiter_eviction_witness :
    (instOf (addSelectionPair wAll gPair true 20 1) false).selection.dragitems = [] ∧
    (instOf (addSelectionPair wAll gPair true 20 1) false).selection.owner = none ∧
    (addSelectionPair wAll gPair true 20 1).draginstance = some true ∧
    ((instOf gPair false).selection.dragitems ≠ [] →
      (evictInstance (setInst gPair true
        (pushSelection (instOf gPair true) 20 1)) false).draginstance = none) :=
  arbiter_eviction wAll gPair false true 20 1 (by decide) rfl rfl (Or.inl rfl)
    (by intro h; exact absurd h (by decide))

/-! ## Supporting lemmas for the reachable-state invariant (claims C2 and C10) -/

theorem itemsOf_eq_of_collection_eq {s s2 : DragState}
    (h : s2.collection = s.collection) (c : Cid) : itemsOf s2 c = itemsOf s c := by
  unfold itemsOf
  rw [h]

theorem lookup_mem : ∀ {cs : List (Cid × List Iid)} {c : Cid} {v : List Iid},
    List.lookup c cs = some v → (c, v) ∈ cs := by
  intro cs
  induction cs with
  | nil => intro c v h; cases h
  | cons e es ih =>
    intro c v h
    obtain ⟨k, v2⟩ := e
    by_cases hk : c = k
    · subst hk
      simp only [List.lookup, beq_self_eq_true] at h
      cases h
      exact List.mem_cons_self _ _
    · have hk2 : (c == k) = false := by simp [hk]
      simp only [List.lookup, hk2] at h
      exact List.mem_cons_of_mem _ (ih h)

theorem contains_eq_false_iff (l : List Iid) (b : Iid) : l.contains b = false ↔ b ∉ l := by
  constructor
  · intro h hb
    have h2 : l.contains b = true := List.elem_eq_true_of_mem hb
    rw [h2] at h
    cases h
  · intro h
    by_contra hb
    exact h (List.mem_of_elem_eq_true (eq_true_of_ne_false hb))

theorem mem_filter_not_contains (l app : List Iid) (b : Iid) :
    b ∈ l.filter (fun it => !(app.contains it)) ↔ b ∈ l ∧ b ∉ app := by
  rw [List.mem_filter]
  constructor
  · rintro ⟨h1, h2⟩
    refine ⟨h1, ?_⟩
    rw [Bool.not_eq_true'] at h2
    exact (contains_eq_false_iff app b).mp h2
  · rintro ⟨h1, h2⟩
    refine ⟨h1, ?_⟩
    rw [Bool.not_eq_true']
    exact (contains_eq_false_iff app b).mpr h2

theorem find?_beq_self : ∀ {l : List Iid} {a : Iid}, a ∈ l →
    l.find? (fun item => item == a) = some a := by
  intro l
  induction l with
  | nil => intro a h; cases h
  | cons y ys ih =>
    intro a h
    by_cases hy : y = a
    · subst hy
      simp [List.find?]
    · have hy2 : (y == a) = false := by simp [hy]
      have hmem : a ∈ ys := by
        rcases List.mem_cons.mp h with h1 | h1
        · exact absurd h1.symm hy
        · exact h1
      simp only [List.find?, hy2]
      exact ih hmem

theorem jsFindIndex_bounds : ∀ {l : List Iid} {a : Iid}, a ∈ l →
    0 ≤ jsFindIndex l a ∧ jsFindIndex l a < l.length := by
  intro l
  induction l with
  | nil => intro a h; cases h
  | cons y ys ih =>
    intro a h
    by_cases hy : y = a
    · simp only [jsFindIndex, if_pos hy, List.length_cons]
      omega
    · have hmem : a ∈ ys := by
        rcases List.mem_cons.mp h with h1 | h1
        · exact absurd h1.symm hy
        · exact h1
      obtain ⟨h1, h2⟩ := ih hmem
      simp only [jsFindIndex, if_neg hy, List.length_cons]
      rw [if_neg (by omega)]
      omega

theorem rangeLoopAux_slice (l : List Iid) : ∀ (k : Nat) (n : Int), 0 ≤ n →
    n.toNat + k ≤ l.length →
    rangeLoopAux l k n = ((l.drop n.toNat).take k).map some := by
  intro k
  induction k with
  | zero => intro n _ _; simp [rangeLoopAux]
  | succ k ih =>
    intro n hn hk
    have hlt : n.toNat < l.length := by omega
    have hget : l.get? n.toNat = some l[n.toNat] := by
      rw [List.get?_eq_getElem?, List.getElem?_eq_getElem hlt]
    have hdrop : l.drop n.toNat = l[n.toNat] :: l.drop (n.toNat + 1) :=
      List.drop_eq_getElem_cons hlt
    have hn1 : (n + 1).toNat = n.toNat + 1 := by omega
    simp only [rangeLoopAux, if_neg (by omega : ¬(n < 0)), hget]
    rw [ih (n + 1) (by omega) (by omega), hdrop, List.take_succ_cons, List.map_cons, hn1]

theorem rangeLoop_slice {l : List Iid} {t0 t1 : Int} (h0 : 0 ≤ t0)
    (h1 : t1 < (l.length : Int)) (h01 : t0 ≤ t1) :
    rangeLoop l t0 t1 = ((l.drop t0.toNat).take (t1 + 1 - t0).toNat).map some := by
  unfold rangeLoop
  exact rangeLoopAux_slice l (t1 + 1 - t0).toNat t0 h0 (by omega)

theorem contains_map_some (rr : List Iid) (x : Iid) :
    ((rr.map some).contains (some x)) = rr.contains x := by
  induction rr with
  | nil => rfl
  | cons y ys ih =>
    simp only [List.map_cons, List.contains_cons, ih]
    by_cases h : x = y
    · subst h
      simp
    · have h1 : (x == y) = false := by simp [h]
      have h2 : ((some x : Option Iid) == some y) = false := by simp [h]
      rw [h1, h2]

theorem foldAddRange_map_some (w : World) (c : Cid) : ∀ (rr : List Iid) (s : DragState),
    foldAddRange w c (rr.map some) s = rr.foldl (fun st it => addSelection w st it c) s := by
  intro rr
  induction rr with
  | nil => intro s; rfl
  | cons y ys ih =>
    intro s
    show foldAddRange w c (ys.map some) (addSelection w s y c) = _
    rw [ih]
    rfl

theorem foldAdd_mismatch (w : World) (c o : Cid) (hne : o ≠ c) :
    ∀ (l : List Iid) (s : DragState), s.selection.owner = some o →
    l.foldl (fun st it => addSelection w st it c) s = s := by
  intro l
  induction l with
  | nil => intro s _; rfl
  | cons y ys ih =>
    intro s ho
    simp only [List.foldl_cons]
    rw [addSelection_mismatch w s y c o ho hne]
    exact ih s ho

theorem lookup_isSome_of_itemsOf_ne_nil {s : DragState} {c : Cid}
    (h : itemsOf s c ≠ []) : (List.lookup c s.collection).isSome := by
  cases hl : List.lookup c s.collection with
  | none =>
    exfalso
    apply h
    unfold itemsOf
    rw [hl]
    rfl
  | some v => rfl

theorem state_dragitems_eta (s : DragState) (l : List Iid)
    (h : l = s.selection.dragitems) :
    { s with selection := { s.selection with dragitems := l } } = s := by
  subst h
  rfl

theorem foldFlags_spec (l : List Iid) : ∀ (s : DragState),
    ((l.foldl (fun st it =>
        { st with selected := fun i => if i = it then false else st.selected i }) s).collection
      = s.collection) ∧
    ((l.foldl (fun st it =>
        { st with selected := fun i => if i = it then false else st.selected i })
        s).activedescendant = s.activedescendant) ∧
    ((l.foldl (fun st it =>
        { st with selected := fun i => if i = it then false else st.selected i })
        s).lastdescendant = s.lastdescendant) ∧
    ((l.foldl (fun st it =>
        { st with selected := fun i => if i = it then false else st.selected i }) s).selection
      = s.selection) ∧
    (∀ j, (l.foldl (fun st it =>
        { st with selected := fun i => if i = it then false else st.selected i }) s).selected j
      = if l.contains j then false else s.selected j) := by
  induction l with
  | nil =>
    intro s
    exact ⟨rfl, rfl, rfl, rfl, fun j => by simp⟩
  | cons it l ih =>
    intro s
    obtain ⟨h1, h2, h3, h4, h5⟩ :=
      ih { s with selected := fun i => if i = it then false else s.selected i }
    simp only [List.foldl_cons]
    refine ⟨h1, h2, h3, h4, ?_⟩
    intro j
    rw [h5 j]
    by_cases hj : j = it
    · subst hj
      by_cases hc : l.contains j <;> simp [hc, List.contains_cons]
    · by_cases hc : l.contains j <;> simp [hc, List.contains_cons, hj, Ne.symm hj]

theorem removeFlags_spec (s : DragState) :
    (removeFlags s).collection = s.collection ∧
    (removeFlags s).activedescendant = s.activedescendant ∧
    (removeFlags s).lastdescendant = s.lastdescendant ∧
    (removeFlags s).selection = s.selection ∧
    (∀ j, (removeFlags s).selected j
      = if s.selection.dragitems.contains j then false else s.selected j) :=
  foldFlags_spec s.selection.dragitems s

theorem lookup_map_pair (g : Cid → List Iid → List Iid) (x : Cid) :
    ∀ (cs : List (Cid × List Iid)),
    List.lookup x (cs.map (fun e => (e.1, g e.1 e.2))) = (List.lookup x cs).map (g x) := by
  intro cs
  induction cs with
  | nil => rfl
  | cons e es ih =>
    obtain ⟨k, v⟩ := e
    by_cases hk : x = k
    · subst hk
      simp [List.lookup]
    · have hk2 : (x == k) = false := by simp [hk]
      simp only [List.map_cons, List.lookup, hk2]
      exact ih

theorem itemsOf_moveItems_ne (s : DragState) (d : Cid) (app : List Iid) (x : Cid)
    (hx : x ≠ d) :
    itemsOf (moveItems s d app) x = (itemsOf s x).filter (fun it => !(app.contains it)) := by
  show (List.lookup x ((moveItems s d app).collection)).getD [] = _
  have hcol : (moveItems s d app).collection = s.collection.map (fun e =>
      (e.1, if e.1 = d then e.2.filter (fun it => !(app.contains it)) ++ app
            else e.2.filter (fun it => !(app.contains it)))) := rfl
  rw [hcol, lookup_map_pair (fun k v =>
    if k = d then v.filter (fun it => !(app.contains it)) ++ app
    else v.filter (fun it => !(app.contains it))) x s.collection]
  cases hl : List.lookup x s.collection with
  | none =>
    show ([] : List Iid) = (itemsOf s x).filter _
    unfold itemsOf
    rw [hl]
    rfl
  | some v =>
    show (if x = d then v.filter (fun it => !(app.contains it)) ++ app
      else v.filter (fun it => !(app.contains it))) = _
    rw [if_neg hx]
    unfold itemsOf
    rw [hl]
    rfl

theorem itemsOf_moveItems_eq (s : DragState) (d : Cid) (app : List Iid)
    (hd : (List.lookup d s.collection).isSome) :
    itemsOf (moveItems s d app) d
      = (itemsOf s d).filter (fun it => !(app.contains it)) ++ app := by
  show (List.lookup d ((moveItems s d app).collection)).getD [] = _
  have hcol : (moveItems s d app).collection = s.collection.map (fun e =>
      (e.1, if e.1 = d then e.2.filter (fun it => !(app.contains it)) ++ app
            else e.2.filter (fun it => !(app.contains it)))) := rfl
  rw [hcol, lookup_map_pair (fun k v =>
    if k = d then v.filter (fun it => !(app.contains it)) ++ app
    else v.filter (fun it => !(app.contains it))) d s.collection]
  cases hl : List.lookup d s.collection with
  | none => rw [hl] at hd; cases hd
  | some v =>
    show (if d = d then v.filter (fun it => !(app.contains it)) ++ app
      else v.filter (fun it => !(app.contains it))) = _
    rw [if_pos rfl]
    unfold itemsOf
    rw [hl]
    rfl

theorem rebuildTarget_spec (s : DragState) (o d c : Cid) :
    (rebuildTarget s o d c).collection = s.collection ∧
    (rebuildTarget s o d c).selected = s.selected ∧
    (rebuildTarget s o d c).selection = s.selection ∧
    (∀ x, x ≠ c → (rebuildTarget s o d c).activedescendant x = s.activedescendant x ∧
      (rebuildTarget s o d c).lastdescendant x = s.lastdescendant x) ∧
    (itemsOf s c = [] → (rebuildTarget s o d c).activedescendant c = none ∧
      (rebuildTarget s o d c).lastdescendant c = s.lastdescendant c) ∧
    (itemsOf s c ≠ [] → ∃ a, a ∈ itemsOf s c ∧
      (rebuildTarget s o d c).activedescendant c = some a ∧
      (rebuildTarget s o d c).lastdescendant c = some a) := by
  cases hits : itemsOf s c with
  | nil =>
    have hred : rebuildTarget s o d c
        = { s with activedescendant := fun x => if x = c then none
            else s.activedescendant x } := by
      unfold rebuildTarget
      rw [hits]
    rw [hred]
    refine ⟨rfl, rfl, rfl, ?_, ?_, ?_⟩
    · intro x hx
      exact ⟨by show (if x = c then none else _) = _; rw [if_neg hx], rfl⟩
    · intro _
      exact ⟨by show (if c = c then none else _) = _; rw [if_pos rfl], rfl⟩
    · intro h
      exact absurd rfl h
  | cons i0 tl =>
    have hred : rebuildTarget s o d c
        = { s with
            activedescendant := fun x => if x = c then
              some (((if d = o ∨ c ≠ o then (i0 :: tl).getLast? else none).getD i0))
              else s.activedescendant x
            lastdescendant := fun x => if x = c then
              some (((if d = o ∨ c ≠ o then (i0 :: tl).getLast? else none).getD i0))
              else s.lastdescendant x } := by
      unfold rebuildTarget
      rw [hits]
    have hmem : ((if d = o ∨ c ≠ o then (i0 :: tl).getLast? else none).getD i0)
        ∈ i0 :: tl := by
      by_cases hc : d = o ∨ c ≠ o
      · rw [if_pos hc]
        have hgl : (i0 :: tl).getLast? = some ((i0 :: tl).getLast (List.cons_ne_nil i0 tl)) :=
          List.getLast?_eq_getLast _ _
        rw [hgl]
        exact List.getLast_mem _
      · rw [if_neg hc]
        exact List.mem_cons_self i0 tl
    rw [hred]
    refine ⟨rfl, rfl, rfl, ?_, ?_, ?_⟩
    · intro x hx
      exact ⟨by show (if x = c then _ else _) = _; rw [if_neg hx],
        by show (if x = c then _ else _) = _; rw [if_neg hx]⟩
    · intro h
      exact absurd h (List.cons_ne_nil i0 tl)
    · intro _
      refine ⟨((if d = o ∨ c ≠ o then (i0 :: tl).getLast? else none).getD i0), ?_, ?_, ?_⟩
      · exact hmem
      · show (if c = c then _ else _) = _
        rw [if_pos rfl]
      · show (if c = c then _ else _) = _
        rw [if_pos rfl]

theorem activeUpdate_spec (s : DragState) (c : Cid) (i : Iid) :
    (activeUpdate s c i).collection = s.collection ∧
    (activeUpdate s c i).selected = s.selected ∧
    (activeUpdate s c i).selection = s.selection ∧
    (∀ x, x ≠ c → (activeUpdate s c i).activedescendant x = s.activedescendant x ∧
      (activeUpdate s c i).lastdescendant x = s.lastdescendant x) ∧
    ((activeUpdate s c i).activedescendant c = s.activedescendant c ∨
      ((activeUpdate s c i).activedescendant c = some i ∧ i ∈ itemsOf s c)) ∧
    ((activeUpdate s c i).lastdescendant c = s.lastdescendant c ∨
      (activeUpdate s c i).lastdescendant c = s.activedescendant c) := by
  by_cases ha : s.activedescendant c = some i
  · have hred : activeUpdate s c i = s := by
      unfold activeUpdate
      rw [if_pos ha]
    rw [hred]
    exact ⟨rfl, rfl, rfl, fun x _ => ⟨rfl, rfl⟩, Or.inl rfl, Or.inl rfl⟩
  · have h1 : activeUpdate s c i =
        (if (itemsOf { s with lastdescendant := fun c2 =>
            if c2 = c then s.activedescendant c else s.lastdescendant c2 } c).contains i then
          { s with
            lastdescendant := fun c2 =>
              if c2 = c then s.activedescendant c else s.lastdescendant c2
            activedescendant := fun c2 =>
              if c2 = c then some i else s.activedescendant c2 }
        else { s with lastdescendant := fun c2 =>
            if c2 = c then s.activedescendant c else s.lastdescendant c2 }) := by
      unfold activeUpdate
      rw [if_neg ha]
    by_cases hc : (itemsOf { s with lastdescendant := fun c2 =>
        if c2 = c then s.activedescendant c else s.lastdescendant c2 } c).contains i
    · rw [h1, if_pos hc]
      refine ⟨rfl, rfl, rfl, ?_, ?_, ?_⟩
      · intro x hx
        exact ⟨by show (if x = c then _ else _) = _; rw [if_neg hx],
          by show (if x = c then _ else _) = _; rw [if_neg hx]⟩
      · refine Or.inr ⟨by show (if c = c then _ else _) = _; rw [if_pos rfl], ?_⟩
        exact List.mem_of_elem_eq_true hc
      · refine Or.inr ?_
        show (if c = c then _ else _) = _
        rw [if_pos rfl]
    · rw [h1, if_neg hc]
      refine ⟨rfl, rfl, rfl, ?_, Or.inl rfl, ?_⟩
      · intro x hx
        exact ⟨rfl, by show (if x = c then _ else _) = _; rw [if_neg hx]⟩
      · refine Or.inr ?_
        show (if c = c then _ else _) = _
        rw [if_pos rfl]

theorem inv_addSelection (w : World) (s : DragState) (i : Iid) (c : Cid)
    (hInv : Inv w s) (hmem : i ∈ itemsOf s c)
    (hnotin : i ∉ s.selection.dragitems) :
    Inv w (addSelection w s i c) := by
  obtain ⟨i1, i2, i3, i4, i5, i6, i7, i8, i9, i10⟩ := hInv
  by_cases hd : w.disabled i
  · rw [addSelection_disabled w s i c hd]
    exact ⟨i1, i2, i3, i4, i5, i6, i7, i8, i9, i10⟩
  · have hd2 : w.disabled i = false := by simpa using hd
    have hpush : (s.selection.owner = none ∨ s.selection.owner = some c) →
        Inv w (pushSelection s i c) := by
      intro ho
      refine ⟨?_, ?_, ?_, ?_, ?_, i6, i7, i8, i9, i10⟩
      · show s.selection.dragitems ++ [i] = [] ↔ (some c : Option Cid) = none
        constructor
        · intro h
          exact absurd h (by simp)
        · intro h
          cases h
      · intro o ho2 x hx
        have hoc : o = c := by
          have h : (some c : Option Cid) = some o := ho2
          exact (Option.some.inj h).symm
        subst hoc
        rcases List.mem_append.mp hx with hx1 | hx1
        · rcases ho with ho | ho
          · rw [i1.mpr ho] at hx1
            cases hx1
          · exact i2 o ho x hx1
        · rw [List.mem_singleton.mp hx1]
          exact hmem
      · show (s.selection.dragitems ++ [i]).Nodup
        refine List.Nodup.append i3 (List.nodup_singleton i) ?_
        intro a ha hb
        rw [List.mem_singleton.mp hb] at ha
        exact hnotin ha
      · intro x hx
        rcases List.mem_append.mp hx with hx1 | hx1
        · exact i4 x hx1
        · rw [List.mem_singleton.mp hx1]
          exact hd2
      · intro j
        show (if j = i then true else s.selected j) = true
          ↔ j ∈ s.selection.dragitems ++ [i]
        by_cases hj : j = i
        · subst hj
          simp
        · rw [if_neg hj, List.mem_append, List.mem_singleton, i5 j]
          simp [hj]
    cases ho : s.selection.owner with
    | none =>
      rw [addSelection_push w s i c hd2 (Or.inl ho)]
      exact hpush (Or.inl ho)
    | some o =>
      by_cases hoc : o = c
      · rw [hoc] at ho
        rw [addSelection_push w s i c hd2 (Or.inr ho)]
        exact hpush (Or.inr ho)
      · rw [addSelection_mismatch w s i c o ho hoc]
        exact ⟨i1, i2, i3, i4, i5, i6, i7, i8, i9, i10⟩

theorem inv_clearSelections (w : World) (s : DragState) (hInv : Inv w s) :
    Inv w (clearSelections s) := by
  obtain ⟨i1, i2, i3, i4, i5, i6, i7, i8, i9, i10⟩ := hInv
  obtain ⟨k1, k2, k3, k4, k5, k6, k7⟩ := clearSelections_spec s
  have hio : ∀ x, itemsOf (clearSelections s) x = itemsOf s x :=
    fun x => itemsOf_eq_of_collection_eq k1 x
  have how : (clearSelections s).selection.owner = none := by
    rw [k6]
    by_cases he : s.selection.dragitems.isEmpty
    · rw [if_pos he]
      exact i1.mp (List.isEmpty_iff.mp he)
    · rw [if_neg he]
  refine ⟨?_, ?_, ?_, ?_, ?_, ?_, ?_, ?_, ?_, ?_⟩
  · rw [k5, how]
    exact iff_of_true rfl rfl
  · intro o ho
    rw [how] at ho
    cases ho
  · rw [k5]
    exact List.nodup_nil
  · intro x hx
    rw [k5] at hx
    cases hx
  · intro j
    rw [k5, k7 j]
    by_cases hc : s.selection.dragitems.contains j
    · rw [if_pos hc]
      constructor
      · intro h
        cases h
      · intro h
        cases h
    · rw [if_neg hc]
      constructor
      · intro hj
        exact absurd (List.elem_eq_true_of_mem ((i5 j).mp hj)) hc
      · intro hj
        cases hj
  · intro x
    rw [hio x]
    exact i6 x
  · intro x y hne j hj
    rw [hio x] at hj
    rw [hio y]
    exact i7 x y hne j hj
  · intro x hx
    rw [hio x] at hx
    rw [hio x, k3]
    exact i8 x hx
  · intro x hx
    rw [hio x] at hx
    rw [hio x, k2]
    exact i9 x hx
  · intro x hx
    rw [k4] at hx
    rw [k1]
    exact i10 x hx

theorem inv_selectAll (w : World) (s : DragState) (c : Cid)
    (hInv : Inv w s)
    (hown : s.selection.owner = none ∨ s.selection.owner = some c) :
    Inv w (selectAllItemsOp w s c) := by
  obtain ⟨i1, i2, i3, i4, i5, i6, i7, i8, i9, i10⟩ := hInv
  have hred : selectAllItemsOp w s c = (itemsOf s c).foldl
      (fun st it => addSelection w st it c)
      { s with selection := { s.selection with dragitems := [] } } := rfl
  rw [hred]
  set s0 : DragState := { s with selection := { s.selection with dragitems := [] } }
    with hs0
  have hb0 : s0.selection.dragitems = ([] : List Iid) := rfl
  have hb1 : s0.selection.owner = s.selection.owner := rfl
  have hb2 : s0.selection.droptarget = s.selection.droptarget := rfl
  have hb3 : ∀ j, s0.selected j = s.selected j := fun j => rfl
  have hb4 : s0.collection = s.collection := rfl
  have hb5 : s0.activedescendant = s.activedescendant := rfl
  have hb6 : s0.lastdescendant = s.lastdescendant := rfl
  obtain ⟨h1, h2, h3, h4, h5, h6, h7, h8⟩ := foldAdd_spec w c (itemsOf s c) s0
    (by rw [hb1]; exact hown)
  rw [hb0, List.nil_append] at h5
  have hio : ∀ x, itemsOf ((itemsOf s c).foldl (fun st it => addSelection w st it c) s0) x
      = itemsOf s x := by
    intro x
    rw [itemsOf_eq_of_collection_eq h1 x]
    exact itemsOf_eq_of_collection_eq hb4 x
  have hsnone : (itemsOf s c).filter (fun i => !(w.disabled i)) = [] →
      s.selection.owner = none := by
    intro he
    rcases hown with h0 | h0
    · exact h0
    · exfalso
      have hne : s.selection.dragitems ≠ [] := by
        intro hnil
        rw [i1.mp hnil] at h0
        cases h0
      obtain ⟨x, hx⟩ := List.exists_mem_of_ne_nil _ hne
      have hxc : x ∈ itemsOf s c := i2 c h0 x hx
      have hxe : x ∈ (itemsOf s c).filter (fun i => !(w.disabled i)) :=
        List.mem_filter.mpr ⟨hxc, by rw [i4 x hx]; rfl⟩
      rw [he] at hxe
      cases hxe
  refine ⟨?_, ?_, ?_, ?_, ?_, ?_, ?_, ?_, ?_, ?_⟩
  · rw [h5, h6]
    by_cases he : (itemsOf s c).filter (fun i => !(w.disabled i)) = []
    · rw [if_pos he, hb1, hsnone he]
      exact iff_of_true he rfl
    · rw [if_neg he]
      constructor
      · intro hh
        exact absurd hh he
      · intro hh
        cases hh
  · intro o ho x hx
    rw [h6] at ho
    rw [h5] at hx
    rw [hio o]
    by_cases he : (itemsOf s c).filter (fun i => !(w.disabled i)) = []
    · rw [he] at hx
      cases hx
    · rw [if_neg he] at ho
      have hoc : o = c := (Option.some.inj ho).symm
      subst hoc
      exact (List.mem_filter.mp hx).1
  · rw [h5]
    exact List.Nodup.filter _ (i6 c)
  · intro x hx
    rw [h5] at hx
    have hh := (List.mem_filter.mp hx).2
    simpa using hh
  · intro j
    rw [h7 j, h5]
    by_cases hc : ((itemsOf s c).filter (fun i => !(w.disabled i))).contains j
    · rw [if_pos hc]
      exact iff_of_true rfl (List.mem_of_elem_eq_true hc)
    · rw [if_neg hc, hb3 j, i5 j]
      constructor
      · intro hj
        exfalso
        rcases hown with h0 | h0
        · rw [i1.mpr h0] at hj
          cases hj
        · have hjc : j ∈ itemsOf s c := i2 c h0 j hj
          have hje : j ∈ (itemsOf s c).filter (fun i => !(w.disabled i)) :=
            List.mem_filter.mpr ⟨hjc, by rw [i4 j hj]; rfl⟩
          exact hc (List.elem_eq_true_of_mem hje)
      · intro hj
        exact absurd (List.elem_eq_true_of_mem hj) hc
  · intro x
    rw [hio x]
    exact i6 x
  · intro x y hne j hj
    rw [hio x] at hj
    rw [hio y]
    exact i7 x y hne j hj
  · intro x hx
    rw [hio x] at hx
    rw [hio x, h3, hb6]
    exact i8 x hx
  · intro x hx
    rw [hio x] at hx
    rw [hio x, h2, hb5]
    exact i9 x hx
  · intro x hx
    rw [h4, hb2] at hx
    rw [h1, hb4]
    exact i10 x hx

theorem inv_activeUpdate (w : World) (s : DragState) (c : Cid) (i : Iid)
    (hInv : Inv w s) : Inv w (activeUpdate s c i) := by
  obtain ⟨i1, i2, i3, i4, i5, i6, i7, i8, i9, i10⟩ := hInv
  obtain ⟨a1, a2, a3, a4, a5, a6⟩ := activeUpdate_spec s c i
  have hio : ∀ x, itemsOf (activeUpdate s c i) x = itemsOf s x :=
    fun x => itemsOf_eq_of_collection_eq a1 x
  refine ⟨?_, ?_, ?_, ?_, ?_, ?_, ?_, ?_, ?_, ?_⟩
  · rw [a3]
    exact i1
  · intro o ho x hx
    rw [a3] at ho hx
    rw [hio o]
    exact i2 o ho x hx
  · rw [a3]
    exact i3
  · intro x hx
    rw [a3] at hx
    exact i4 x hx
  · intro j
    rw [a2, a3]
    exact i5 j
  · intro x
    rw [hio x]
    exact i6 x
  · intro x y hne j hj
    rw [hio x] at hj
    rw [hio y]
    exact i7 x y hne j hj
  · intro x hx
    rw [hio x] at hx
    rw [hio x]
    by_cases hxc : x = c
    · subst hxc
      rcases a6 with h | h
      · rw [h]
        exact i8 x hx
      · rw [h]
        exact i9 x hx
    · rw [(a4 x hxc).2]
      exact i8 x hx
  · intro x hx
    rw [hio x] at hx
    rw [hio x]
    by_cases hxc : x = c
    · subst hxc
      rcases a5 with h | ⟨h, hm⟩
      · rw [h]
        exact i9 x hx
      · rw [h]
        exact ⟨i, rfl, hm⟩
    · rw [(a4 x hxc).1]
      exact i9 x hx
  · intro x hx
    rw [a3] at hx
    rw [a1]
    exact i10 x hx

theorem inv_setDrop (w : World) (s : DragState) (c : Cid) (ns : Bool)
    (hInv : Inv w s) (hkey : (List.lookup c s.collection).isSome) :
    Inv w (setDrop s c ns) := by
  obtain ⟨i1, i2, i3, i4, i5, i6, i7, i8, i9, i10⟩ := hInv
  refine ⟨i1, i2, i3, i4, i5, i6, i7, i8, i9, ?_⟩
  intro c2 hc2
  have h : some c = some c2 := hc2
  cases Option.some.inj h
  exact hkey

theorem inv_setDropKeepSort (w : World) (s : DragState) (c : Cid)
    (hInv : Inv w s) (hkey : (List.lookup c s.collection).isSome) :
    Inv w (setDropKeepSort s c) := by
  obtain ⟨i1, i2, i3, i4, i5, i6, i7, i8, i9, i10⟩ := hInv
  refine ⟨i1, i2, i3, i4, i5, i6, i7, i8, i9, ?_⟩
  intro c2 hc2
  have h : some c = some c2 := hc2
  cases Option.some.inj h
  exact hkey

theorem inv_nativeDropPrep (w : World) (s : DragState) (b : Bool)
    (hInv : Inv w s) : Inv w (nativeDropPrep s b) := by
  obtain ⟨i1, i2, i3, i4, i5, i6, i7, i8, i9, i10⟩ := hInv
  have hownkey : ∀ o, s.selection.owner = some o →
      (List.lookup o s.collection).isSome := by
    intro o ho
    have hne : s.selection.dragitems ≠ [] := by
      intro hnil
      rw [i1.mp hnil] at ho
      cases ho
    obtain ⟨x, hx⟩ := List.exists_mem_of_ne_nil _ hne
    exact lookup_isSome_of_itemsOf_ne_nil (List.ne_nil_of_mem (i2 o ho x hx))
  simp only [nativeDropPrep]
  split
  · refine ⟨i1, i2, i3, i4, i5, i6, i7, i8, i9, ?_⟩
    intro c2 hc2
    exact hownkey c2 hc2
  · exact ⟨i1, i2, i3, i4, i5, i6, i7, i8, i9, i10⟩

theorem addSelectionRange_empty (w : World) (s : DragState) (c : Cid)
    (hit : itemsOf s c = []) : addSelectionRange w s c = s := by
  simp only [addSelectionRange]
  rw [hit]
  have hrange : [s.lastdescendant c, s.activedescendant c].map (fun attr =>
      attr.bind (fun a => ([] : List Iid).find? (fun item => item == a)))
      = [none, none] := by
    cases s.lastdescendant c <;> cases s.activedescendant c <;> rfl
  rw [hrange]
  show { s with selection := { s.selection with
    dragitems := s.selection.dragitems.filter
      (fun item => !(([none] : List (Option Iid)).contains (some item))) } } = s
  apply state_dragitems_eta
  exact List.filter_eq_self.mpr (fun a _ => rfl)

theorem addSelectionRange_char (w : World) (s : DragState) (c : Cid)
    (la aa : Iid)
    (hla : s.lastdescendant c = some la) (haa : s.activedescendant c = some aa)
    (hlam : la ∈ itemsOf s c) (haam : aa ∈ itemsOf s c) :
    addSelectionRange w s c = rangeApply w s c
      (if jsFindIndex (itemsOf s c) aa < jsFindIndex (itemsOf s c) la then
        (rangeLoop (itemsOf s c)
          (min (jsFindIndex (itemsOf s c) la) (jsFindIndex (itemsOf s c) aa))
          (max (jsFindIndex (itemsOf s c) la) (jsFindIndex (itemsOf s c) aa))).reverse
      else rangeLoop (itemsOf s c)
          (min (jsFindIndex (itemsOf s c) la) (jsFindIndex (itemsOf s c) aa))
          (max (jsFindIndex (itemsOf s c) la) (jsFindIndex (itemsOf s c) aa))) := by
  simp only [addSelectionRange]
  rw [hla, haa]
  have hrange : [some la, some aa].map (fun attr =>
      attr.bind (fun a => (itemsOf s c).find? (fun item => item == a)))
      = [some la, some aa] := by
    show [(itemsOf s c).find? (fun item => item == la),
          (itemsOf s c).find? (fun item => item == aa)] = _
    rw [find?_beq_self hlam, find?_beq_self haam]
  rw [hrange]
  rfl

theorem inv_rangeApply_map (w : World) (s : DragState) (c : Cid) (rr : List Iid)
    (hInv : Inv w s) (hsub : ∀ a ∈ rr, a ∈ itemsOf s c) (hnd : rr.Nodup) :
    Inv w (rangeApply w s c (rr.map some)) := by
  obtain ⟨i1, i2, i3, i4, i5, i6, i7, i8, i9, i10⟩ := hInv
  show Inv w (foldAddRange w c (rr.map some) { s with selection := { s.selection with
    dragitems := s.selection.dragitems.filter
      (fun item => !((rr.map some).contains (some item))) } })
  rw [foldAddRange_map_some]
  have hfil : s.selection.dragitems.filter
      (fun item => !((rr.map some).contains (some item)))
      = s.selection.dragitems.filter (fun item => !(rr.contains item)) := by
    apply List.filter_congr
    intro x _
    rw [contains_map_some]
  rw [hfil]
  cases ho : s.selection.owner with
  | none =>
    have hnil : s.selection.dragitems = [] := i1.mpr ho
    rw [hnil, List.filter_nil]
    set s0 : DragState := { s with selection := { s.selection with
      dragitems := ([] : List Iid) } } with hs0
    have hb0 : s0.selection.dragitems = ([] : List Iid) := rfl
    have hb1 : s0.selection.owner = s.selection.owner := rfl
    have hb2 : s0.selection.droptarget = s.selection.droptarget := rfl
    have hb3 : ∀ j, s0.selected j = s.selected j := fun j => rfl
    have hb4 : s0.collection = s.collection := rfl
    have hb5 : s0.activedescendant = s.activedescendant := rfl
    have hb6 : s0.lastdescendant = s.lastdescendant := rfl
    obtain ⟨h1, h2, h3, h4, h5, h6, h7, h8⟩ := foldAdd_spec w c rr s0
      (Or.inl (by rw [hb1, ho]))
    rw [hb0, List.nil_append] at h5
    have hio : ∀ x, itemsOf (rr.foldl (fun st it => addSelection w st it c) s0) x
        = itemsOf s x := by
      intro x
      rw [itemsOf_eq_of_collection_eq h1 x]
      exact itemsOf_eq_of_collection_eq hb4 x
    refine ⟨?_, ?_, ?_, ?_, ?_, ?_, ?_, ?_, ?_, ?_⟩
    · rw [h5, h6]
      by_cases he : rr.filter (fun i => !(w.disabled i)) = []
      · rw [if_pos he, hb1, ho]
        exact iff_of_true he rfl
      · rw [if_neg he]
        exact iff_of_false he (fun hh => Option.noConfusion hh)
    · intro o2 ho2 x hx
      rw [h6] at ho2
      rw [h5] at hx
      rw [hio o2]
      by_cases he : rr.filter (fun i => !(w.disabled i)) = []
      · rw [he] at hx
        cases hx
      · rw [if_neg he] at ho2
        have hoc : o2 = c := (Option.some.inj ho2).symm
        subst hoc
        exact hsub x (List.mem_filter.mp hx).1
    · rw [h5]
      exact List.Nodup.filter _ hnd
    · intro x hx
      rw [h5] at hx
      have hh := (List.mem_filter.mp hx).2
      simpa using hh
    · intro j
      rw [h7 j, h5]
      by_cases hc : (rr.filter (fun i => !(w.disabled i))).contains j
      · rw [if_pos hc]
        exact iff_of_true rfl (List.mem_of_elem_eq_true hc)
      · rw [if_neg hc, hb3 j, i5 j, hnil]
        constructor
        · intro hj
          cases hj
        · intro hj
          exact absurd (List.elem_eq_true_of_mem hj) hc
    · intro x
      rw [hio x]
      exact i6 x
    · intro x y hne j hj
      rw [hio x] at hj
      rw [hio y]
      exact i7 x y hne j hj
    · intro x hx
      rw [hio x] at hx
      rw [hio x, h3, hb6]
      exact i8 x hx
    · intro x hx
      rw [hio x] at hx
      rw [hio x, h2, hb5]
      exact i9 x hx
    · intro x hx
      rw [h4, hb2] at hx
      rw [h1, hb4]
      exact i10 x hx
  | some o =>
    by_cases hoc : o = c
    · rw [hoc] at ho
      set s20 : DragState := { s with selection := { s.selection with
        dragitems := s.selection.dragitems.filter (fun item => !(rr.contains item)) } }
        with hs20
      have hb0 : s20.selection.dragitems
          = s.selection.dragitems.filter (fun item => !(rr.contains item)) := rfl
      have hb1 : s20.selection.owner = s.selection.owner := rfl
      have hb2 : s20.selection.droptarget = s.selection.droptarget := rfl
      have hb3 : ∀ j, s20.selected j = s.selected j := fun j => rfl
      have hb4 : s20.collection = s.collection := rfl
      have hb5 : s20.activedescendant = s.activedescendant := rfl
      have hb6 : s20.lastdescendant = s.lastdescendant := rfl
      obtain ⟨h1, h2, h3, h4, h5, h6, h7, h8⟩ := foldAdd_spec w c rr s20
        (Or.inr (by rw [hb1, ho]))
      rw [hb0] at h5
      have hio : ∀ x, itemsOf (rr.foldl (fun st it => addSelection w st it c) s20) x
          = itemsOf s x := by
        intro x
        rw [itemsOf_eq_of_collection_eq h1 x]
        exact itemsOf_eq_of_collection_eq hb4 x
      have hold2sub : ∀ x ∈ s.selection.dragitems.filter (fun item => !(rr.contains item)),
          x ∈ s.selection.dragitems := fun x hx => (List.mem_filter.mp hx).1
      have hnotin2 : ∀ x ∈ s.selection.dragitems.filter (fun item => !(rr.contains item)),
          x ∉ rr := fun x hx => ((mem_filter_not_contains _ _ _).mp hx).2
      refine ⟨?_, ?_, ?_, ?_, ?_, ?_, ?_, ?_, ?_, ?_⟩
      · rw [h5, h6]
        have hne : s.selection.dragitems.filter (fun item => !(rr.contains item))
            ++ rr.filter (fun i => !(w.disabled i)) ≠ [] := by
          intro hnil2
          obtain ⟨ha2, he2⟩ := List.append_eq_nil.mp hnil2
          have hdisr : ∀ x ∈ rr, w.disabled x = true := by
            intro x hx
            have hh := List.filter_eq_nil_iff.mp he2 x hx
            simpa using hh
          have hfull : s.selection.dragitems.filter (fun item => !(rr.contains item))
              = s.selection.dragitems := by
            apply List.filter_eq_self.mpr
            intro a ha
            have hanr : a ∉ rr := by
              intro har
              have hd := hdisr a har
              rw [i4 a ha] at hd
              exact Bool.false_ne_true hd
            simp [hanr]
          rw [hfull] at ha2
          rw [i1.mp ha2] at ho
          cases ho
        refine iff_of_false hne ?_
        intro hh
        by_cases he : rr.filter (fun i => !(w.disabled i)) = []
        · rw [if_pos he, hb1, ho] at hh
          cases hh
        · rw [if_neg he] at hh
          cases hh
      · intro o2 ho2 x hx
        rw [h6] at ho2
        rw [h5] at hx
        rw [hio o2]
        have hoc2 : o2 = c := by
          by_cases he : rr.filter (fun i => !(w.disabled i)) = []
          · rw [if_pos he, hb1, ho] at ho2
            exact (Option.some.inj ho2).symm
          · rw [if_neg he] at ho2
            exact (Option.some.inj ho2).symm
        rw [hoc2]
        rcases List.mem_append.mp hx with hx1 | hx1
        · exact i2 c ho x (hold2sub x hx1)
        · exact hsub x (List.mem_filter.mp hx1).1
      · rw [h5]
        refine List.Nodup.append (List.Nodup.filter _ i3) (List.Nodup.filter _ hnd) ?_
        intro a ha hb
        exact hnotin2 a ha (List.mem_filter.mp hb).1
      · intro x hx
        rw [h5] at hx
        rcases List.mem_append.mp hx with hx1 | hx1
        · exact i4 x (hold2sub x hx1)
        · have hh := (List.mem_filter.mp hx1).2
          simpa using hh
      · intro j
        rw [h7 j, h5, hb3 j]
        by_cases hc : (rr.filter (fun i => !(w.disabled i))).contains j
        · rw [if_pos hc]
          exact iff_of_true rfl
            (List.mem_append.mpr (Or.inr (List.mem_of_elem_eq_true hc)))
        · rw [if_neg hc, i5 j]
          constructor
          · intro hj
            refine List.mem_append.mpr (Or.inl ?_)
            refine (mem_filter_not_contains _ _ _).mpr ⟨hj, ?_⟩
            intro hjr
            apply hc
            apply List.elem_eq_true_of_mem
            exact List.mem_filter.mpr ⟨hjr, by rw [i4 j hj]; rfl⟩
          · intro hj
            rcases List.mem_append.mp hj with hj1 | hj1
            · exact hold2sub j hj1
            · exact absurd (List.elem_eq_true_of_mem hj1) hc
      · intro x
        rw [hio x]
        exact i6 x
      · intro x y hne j hj
        rw [hio x] at hj
        rw [hio y]
        exact i7 x y hne j hj
      · intro x hx
        rw [hio x] at hx
        rw [hio x, h3, hb6]
        exact i8 x hx
      · intro x hx
        rw [hio x] at hx
        rw [hio x, h2, hb5]
        exact i9 x hx
      · intro x hx
        rw [h4, hb2] at hx
        rw [h1, hb4]
        exact i10 x hx
    · have hfull : s.selection.dragitems.filter (fun item => !(rr.contains item))
          = s.selection.dragitems := by
        apply List.filter_eq_self.mpr
        intro a ha
        have hanr : a ∉ rr := by
          intro har
          exact i7 o c hoc a (i2 o ho a ha) (hsub a har)
        simp [hanr]
      rw [hfull, state_dragitems_eta s s.selection.dragitems rfl,
        foldAdd_mismatch w c o hoc rr s ho]
      exact ⟨i1, i2, i3, i4, i5, i6, i7, i8, i9, i10⟩

theorem inv_addSelectionRange (w : World) (s : DragState) (c : Cid)
    (hInv : Inv w s) : Inv w (addSelectionRange w s c) := by
  by_cases hit : itemsOf s c = []
  · rw [addSelectionRange_empty w s c hit]
    exact hInv
  · obtain ⟨i1, i2, i3, i4, i5, i6, i7, i8, i9, i10⟩ := hInv
    obtain ⟨la, hla, hlam⟩ := i8 c hit
    obtain ⟨aa, haa, haam⟩ := i9 c hit
    rw [addSelectionRange_char w s c la aa hla haa hlam haam]
    have hex : ∃ sl : List Iid, sl.Nodup ∧ (∀ a ∈ sl, a ∈ itemsOf s c) ∧
        rangeLoop (itemsOf s c)
          (min (jsFindIndex (itemsOf s c) la) (jsFindIndex (itemsOf s c) aa))
          (max (jsFindIndex (itemsOf s c) la) (jsFindIndex (itemsOf s c) aa))
        = sl.map some := by
      obtain ⟨hb0a, hb0b⟩ := jsFindIndex_bounds hlam
      obtain ⟨hb1a, hb1b⟩ := jsFindIndex_bounds haam
      refine ⟨((itemsOf s c).drop (min (jsFindIndex (itemsOf s c) la)
          (jsFindIndex (itemsOf s c) aa)).toNat).take
          ((max (jsFindIndex (itemsOf s c) la) (jsFindIndex (itemsOf s c) aa) + 1
            - min (jsFindIndex (itemsOf s c) la)
              (jsFindIndex (itemsOf s c) aa)).toNat), ?_, ?_, ?_⟩
      · exact ((List.take_sublist _ _).trans (List.drop_sublist _ _)).nodup (i6 c)
      · intro a ha
        exact ((List.take_sublist _ _).trans (List.drop_sublist _ _)).subset ha
      · exact rangeLoop_slice (le_min hb0a hb1a) (max_lt hb0b hb1b) min_le_max
    obtain ⟨sl, hslnd, hslsub, hsleq⟩ := hex
    by_cases hdir : jsFindIndex (itemsOf s c) aa < jsFindIndex (itemsOf s c) la
    · rw [if_pos hdir, hsleq]
      have hrev : (sl.map some).reverse = sl.reverse.map some := by
        simp
      rw [hrev]
      exact inv_rangeApply_map w s c sl.reverse
        ⟨i1, i2, i3, i4, i5, i6, i7, i8, i9, i10⟩
        (fun a ha => hslsub a (List.mem_reverse.mp ha))
        (List.nodup_reverse.mpr hslnd)
    · rw [if_neg hdir, hsleq]
      exact inv_rangeApply_map w s c sl
        ⟨i1, i2, i3, i4, i5, i6, i7, i8, i9, i10⟩ hslsub hslnd

theorem inv_runDrop (w : World) (s : DragState) (hInv : Inv w s) :
    Inv w (runDrop s) := by
  obtain ⟨i1, i2, i3, i4, i5, i6, i7, i8, i9, i10⟩ := hInv
  cases hdt : s.selection.droptarget with
  | none =>
    have hrun : runDrop s = s := by
      simp only [runDrop, doDropThing, hdt]
    rw [hrun]
    exact ⟨i1, i2, i3, i4, i5, i6, i7, i8, i9, i10⟩
  | some d =>
    cases how : s.selection.owner with
    | none =>
      have hrun : runDrop s = s := by
        simp only [runDrop, doDropThing, hdt, how]
      rw [hrun]
      exact ⟨i1, i2, i3, i4, i5, i6, i7, i8, i9, i10⟩
    | some o =>
      have hrun : runDrop s =
          { clearSelections ([o, d].foldl
              (fun st c => rebuildTarget st o d c)
              (moveItems (removeFlags s) d (dropAppendages (removeFlags s) o))) with
            selection := { (clearSelections ([o, d].foldl
              (fun st c => rebuildTarget st o d c)
              (moveItems (removeFlags s) d
                (dropAppendages (removeFlags s) o)))).selection with
              droptarget := none } } := by
        simp only [runDrop, doDropThing, hdt, how]
      rw [hrun]
      obtain ⟨r1, r2, r3, r4, r5⟩ := removeFlags_spec s
      set s1 := removeFlags s with hs1
      have hio1 : ∀ x, itemsOf s1 x = itemsOf s x :=
        fun x => itemsOf_eq_of_collection_eq r1 x
      have hsel1 : s1.selection = s.selection := r4
      have hragne : s.selection.dragitems ≠ [] := by
        intro hnil
        rw [i1.mp hnil] at how
        cases how
      have happ_sub : ∀ a ∈ dropAppendages s1 o, a ∈ itemsOf s o := by
        intro a ha
        unfold dropAppendages at ha
        rw [hsel1] at ha
        by_cases hns : s.selection.nodesort
        · rw [if_pos hns] at ha
          rw [hio1 o] at ha
          exact (List.mem_filter.mp ha).1
        · rw [if_neg hns] at ha
          exact i2 o how a ha
      have happ_nodup : (dropAppendages s1 o).Nodup := by
        unfold dropAppendages
        rw [hsel1]
        by_cases hns : s.selection.nodesort
        · rw [if_pos hns, hio1 o]
          exact List.Nodup.filter _ (i6 o)
        · rw [if_neg hns]
          exact i3
      have happ_ne : dropAppendages s1 o ≠ [] := by
        obtain ⟨x, hx⟩ := List.exists_mem_of_ne_nil _ hragne
        unfold dropAppendages
        rw [hsel1]
        by_cases hns : s.selection.nodesort
        · rw [if_pos hns, hio1 o]
          have hxo : x ∈ itemsOf s o := i2 o how x hx
          have hxf : x ∈ (itemsOf s o).filter
              (fun it => s.selection.dragitems.contains it) :=
            List.mem_filter.mpr ⟨hxo, List.elem_eq_true_of_mem hx⟩
          exact List.ne_nil_of_mem hxf
        · rw [if_neg hns]
          exact hragne
      set app := dropAppendages s1 o with happd
      have hlookd : (List.lookup d s.collection).isSome := i10 d hdt
      have hlookd1 : (List.lookup d s1.collection).isSome := by
        rw [r1]
        exact hlookd
      have hmv_ne : ∀ x, x ≠ d → itemsOf (moveItems s1 d app) x
          = (itemsOf s x).filter (fun it => !(app.contains it)) := by
        intro x hx
        rw [itemsOf_moveItems_ne s1 d app x hx, hio1 x]
      have hmv_eq : itemsOf (moveItems s1 d app) d
          = (itemsOf s d).filter (fun it => !(app.contains it)) ++ app := by
        rw [itemsOf_moveItems_eq s1 d app hlookd1, hio1 d]
      set s2 := moveItems s1 d app with hs2
      have hm1 : s2.selected = s1.selected := by rw [hs2]; rfl
      have hm2 : s2.selection = s1.selection := by rw [hs2]; rfl
      have hm3 : s2.activedescendant = s1.activedescendant := by rw [hs2]; rfl
      have hm4 : s2.lastdescendant = s1.lastdescendant := by rw [hs2]; rfl
      rw [show [o, d].foldl (fun st c => rebuildTarget st o d c) s2
        = rebuildTarget (rebuildTarget s2 o d o) o d d from rfl]
      obtain ⟨b1, b2, b3, b4, b5, b6⟩ := rebuildTarget_spec s2 o d o
      set s2a := rebuildTarget s2 o d o with hs2a
      obtain ⟨c1, c2, c3, c4, c5, c6⟩ := rebuildTarget_spec s2a o d d
      set s3 := rebuildTarget s2a o d d with hs3
      obtain ⟨k1, k2, k3, k4, k5, k6, k7⟩ := clearSelections_spec s3
      set s4 := clearSelections s3 with hs4
      have hio2 : ∀ x, itemsOf s2a x = itemsOf s2 x :=
        fun x => itemsOf_eq_of_collection_eq b1 x
      have hio3 : ∀ x, itemsOf s3 x = itemsOf s2 x := by
        intro x
        rw [itemsOf_eq_of_collection_eq c1 x]
        exact hio2 x
      have hio4 : ∀ x, itemsOf s4 x = itemsOf s2 x := by
        intro x
        rw [itemsOf_eq_of_collection_eq k1 x]
        exact hio3 x
      have hsel3 : s3.selection = s.selection := by
        rw [c3, b3, hm2, hsel1]
      have hdrag3 : s3.selection.dragitems = s.selection.dragitems := by
        rw [hsel3]
      have hown4 : s4.selection.owner = none := by
        rw [k6, hdrag3, if_neg (fun hemp => hragne (List.isEmpty_iff.mp hemp))]
      have hselfin : ∀ j, s4.selected j
          = if s.selection.dragitems.contains j then false else s.selected j := by
        intro j
        rw [k7 j, hdrag3, c2, b2, hm1, r5 j]
        by_cases hc : s.selection.dragitems.contains j
        · rw [if_pos hc, if_pos hc]
        · rw [if_neg hc, if_neg hc]
      have hnoop : ∀ x, x ≠ d → x ≠ o → itemsOf s2 x = itemsOf s x := by
        intro x hxd hxo
        rw [hmv_ne x hxd]
        apply List.filter_eq_self.mpr
        intro a ha
        have hanr : a ∉ app := by
          intro har
          exact i7 o x (Ne.symm hxo) a (happ_sub a har) ha
        simp [hanr]
      have hiof : ∀ x, itemsOf { s4 with selection :=
          { s4.selection with droptarget := none } } x = itemsOf s2 x := by
        intro x
        show itemsOf s4 x = itemsOf s2 x
        exact hio4 x
      refine ⟨?_, ?_, ?_, ?_, ?_, ?_, ?_, ?_, ?_, ?_⟩
      · show s4.selection.dragitems = [] ↔ s4.selection.owner = none
        rw [k5, hown4]
        exact iff_of_true rfl rfl
      · intro o2 ho2 x hx
        have ho2b : s4.selection.owner = some o2 := ho2
        rw [hown4] at ho2b
        cases ho2b
      · show s4.selection.dragitems.Nodup
        rw [k5]
        exact List.nodup_nil
      · intro x hx
        have hx2 : x ∈ s4.selection.dragitems := hx
        rw [k5] at hx2
        cases hx2
      · intro j
        show s4.selected j = true ↔ j ∈ s4.selection.dragitems
        rw [k5, hselfin j]
        by_cases hc : s.selection.dragitems.contains j
        · rw [if_pos hc]
          exact iff_of_false Bool.false_ne_true (List.not_mem_nil j)
        · rw [if_neg hc]
          constructor
          · intro hj
            exact absurd (List.elem_eq_true_of_mem ((i5 j).mp hj)) hc
          · intro hj
            cases hj
      · intro x
        rw [hiof x]
        by_cases hxd : x = d
        · subst hxd
          rw [hmv_eq]
          refine List.Nodup.append (List.Nodup.filter _ (i6 x)) happ_nodup ?_
          intro a ha hb
          exact ((mem_filter_not_contains _ _ _).mp ha).2 hb
        · rw [hmv_ne x hxd]
          exact List.Nodup.filter _ (i6 x)
      · intro x y hne j hjx
        rw [hiof x] at hjx
        rw [hiof y]
        by_cases hxd : x = d
        · subst hxd
          rw [hmv_eq] at hjx
          rw [hmv_ne y (Ne.symm hne)]
          intro hjy
          obtain ⟨hjy1, hjy2⟩ := (mem_filter_not_contains _ _ _).mp hjy
          rcases List.mem_append.mp hjx with hj1 | hj1
          · exact i7 x y hne j ((mem_filter_not_contains _ _ _).mp hj1).1 hjy1
          · exact hjy2 hj1
        · by_cases hyd : y = d
          · subst hyd
            rw [hmv_ne x hxd] at hjx
            rw [hmv_eq]
            obtain ⟨hjx1, hjx2⟩ := (mem_filter_not_contains _ _ _).mp hjx
            intro hjy
            rcases List.mem_append.mp hjy with hj1 | hj1
            · exact i7 x y hne j hjx1 ((mem_filter_not_contains _ _ _).mp hj1).1
            · exact hjx2 hj1
          · rw [hmv_ne x hxd] at hjx
            rw [hmv_ne y hyd]
            intro hjy
            exact i7 x y hne j ((mem_filter_not_contains _ _ _).mp hjx).1
              ((mem_filter_not_contains _ _ _).mp hjy).1
      · intro x hx
        rw [hiof x] at hx
        have hgoal : ∃ a, s3.lastdescendant x = some a ∧ a ∈ itemsOf s2 x := by
          by_cases hxd : x = d
          · subst hxd
            have hne2a : itemsOf s2a x ≠ [] := by
              rw [hio2 x]
              exact hx
            obtain ⟨a, ham, ha1, ha2⟩ := c6 hne2a
            rw [hio2 x] at ham
            exact ⟨a, ha2, ham⟩
          · by_cases hxo : x = o
            · subst hxo
              rw [(c4 x hxd).2]
              obtain ⟨a, ham, ha1, ha2⟩ := b6 hx
              exact ⟨a, ha2, ham⟩
            · rw [(c4 x hxd).2, (b4 x hxo).2, hm4, r3]
              rw [hnoop x hxd hxo] at hx
              obtain ⟨a, ha1, ha2⟩ := i8 x hx
              rw [hnoop x hxd hxo]
              exact ⟨a, ha1, ha2⟩
        obtain ⟨a, ha1, ha2⟩ := hgoal
        refine ⟨a, ?_, ?_⟩
        · show s4.lastdescendant x = some a
          rw [k3]
          exact ha1
        · rw [hiof x]
          exact ha2
      · intro x hx
        rw [hiof x] at hx
        have hgoal : ∃ a, s3.activedescendant x = some a ∧ a ∈ itemsOf s2 x := by
          by_cases hxd : x = d
          · subst hxd
            have hne2a : itemsOf s2a x ≠ [] := by
              rw [hio2 x]
              exact hx
            obtain ⟨a, ham, ha1, ha2⟩ := c6 hne2a
            rw [hio2 x] at ham
            exact ⟨a, ha1, ham⟩
          · by_cases hxo : x = o
            · subst hxo
              rw [(c4 x hxd).1]
              obtain ⟨a, ham, ha1, ha2⟩ := b6 hx
              exact ⟨a, ha1, ham⟩
            · rw [(c4 x hxd).1, (b4 x hxo).1, hm3, r2]
              rw [hnoop x hxd hxo] at hx
              obtain ⟨a, ha1, ha2⟩ := i9 x hx
              rw [hnoop x hxd hxo]
              exact ⟨a, ha1, ha2⟩
        obtain ⟨a, ha1, ha2⟩ := hgoal
        refine ⟨a, ?_, ?_⟩
        · show s4.activedescendant x = some a
          rw [k2]
          exact ha1
        · rw [hiof x]
          exact ha2
      · intro x hx
        have hno : (none : Option Cid) = some x := hx
        cases hno

theorem inv_doSelectionThing (w : World) (s : DragState) (c : Cid) (i : Iid) (mm : Nat)
    (hInv : Inv w s) (hmem : i ∈ itemsOf s c) :
    Inv w (doSelectionThing w s c i mm) := by
  have hInvKeep := hInv
  obtain ⟨i1, i2, i3, i4, i5, i6, i7, i8, i9, i10⟩ := hInvKeep
  have hdefault : Inv w (if (s.selection.dragitems.length == 1
        && s.selection.dragitems.contains i) = true then clearSelections s
      else addSelection w (clearSelections s) i c) := by
    obtain ⟨k1, k2, k3, k4, k5, k6, k7⟩ := clearSelections_spec s
    have hc : Inv w (clearSelections s) := inv_clearSelections w s hInv
    by_cases hs : (s.selection.dragitems.length == 1
        && s.selection.dragitems.contains i) = true
    · rw [if_pos hs]
      exact hc
    · rw [if_neg hs]
      apply inv_addSelection w (clearSelections s) i c hc
      · rw [itemsOf_eq_of_collection_eq k1 c]
        exact hmem
      · rw [k5]
        exact List.not_mem_nil i
  have hmm1 : Inv w (if s.selected i = true then
      (if (removeSelection s i).selection.dragitems.isEmpty = true then
        { removeSelection s i with selection :=
          { (removeSelection s i).selection with owner := none } }
      else removeSelection s i)
    else addSelection w s i c) := by
    by_cases hsel : s.selected i = true
    · rw [if_pos hsel]
      have hmemf : ∀ x, x ∈ (removeSelection s i).selection.dragitems
          ↔ (x ∈ s.selection.dragitems ∧ x ≠ i) := by
        intro x
        show x ∈ s.selection.dragitems.filter (fun item => item ≠ i) ↔ _
        rw [List.mem_filter]
        constructor
        · rintro ⟨h1, h2⟩
          exact ⟨h1, by simpa using h2⟩
        · rintro ⟨h1, h2⟩
          exact ⟨h1, by simpa using h2⟩
      by_cases hemp : (removeSelection s i).selection.dragitems.isEmpty = true
      · rw [if_pos hemp]
        have hnil : (removeSelection s i).selection.dragitems = [] :=
          List.isEmpty_iff.mp hemp
        refine ⟨?_, ?_, ?_, ?_, ?_, i6, i7, i8, i9, i10⟩
        · show (removeSelection s i).selection.dragitems = []
            ↔ (none : Option Cid) = none
          rw [hnil]
          exact iff_of_true rfl rfl
        · intro o2 ho2 x hx
          have hno : (none : Option Cid) = some o2 := ho2
          cases hno
        · show (removeSelection s i).selection.dragitems.Nodup
          rw [hnil]
          exact List.nodup_nil
        · intro x hx
          have hx2 : x ∈ (removeSelection s i).selection.dragitems := hx
          rw [hnil] at hx2
          cases hx2
        · intro j
          show (if j = i then false else s.selected j) = true
            ↔ j ∈ (removeSelection s i).selection.dragitems
          rw [hnil]
          by_cases hj : j = i
          · rw [if_pos hj]
            exact iff_of_false Bool.false_ne_true (List.not_mem_nil j)
          · rw [if_neg hj]
            refine iff_of_false ?_ (List.not_mem_nil j)
            intro hjt
            have hjm : j ∈ (removeSelection s i).selection.dragitems :=
              (hmemf j).mpr ⟨(i5 j).mp hjt, hj⟩
            rw [hnil] at hjm
            cases hjm
      · rw [if_neg hemp]
        have hne : (removeSelection s i).selection.dragitems ≠ [] := by
          intro hnil2
          exact hemp (List.isEmpty_iff.mpr hnil2)
        refine ⟨?_, ?_, ?_, ?_, ?_, i6, i7, i8, i9, i10⟩
        · refine iff_of_false hne ?_
          intro hnone
          have hnone2 : s.selection.owner = none := hnone
          apply hne
          show s.selection.dragitems.filter (fun item => item ≠ i) = []
          rw [i1.mpr hnone2]
          rfl
        · intro o2 ho2 x hx
          have ho2b : s.selection.owner = some o2 := ho2
          exact i2 o2 ho2b x ((hmemf x).mp hx).1
        · show (s.selection.dragitems.filter (fun item => item ≠ i)).Nodup
          exact List.Nodup.filter _ i3
        · intro x hx
          exact i4 x ((hmemf x).mp hx).1
        · intro j
          show (if j = i then false else s.selected j) = true
            ↔ j ∈ (removeSelection s i).selection.dragitems
          by_cases hj : j = i
          · rw [if_pos hj]
            refine iff_of_false Bool.false_ne_true ?_
            intro hjm
            exact ((hmemf j).mp hjm).2 hj
          · rw [if_neg hj, i5 j]
            constructor
            · intro hjm
              exact (hmemf j).mpr ⟨hjm, hj⟩
            · intro hjm
              exact ((hmemf j).mp hjm).1
    · rw [if_neg hsel]
      apply inv_addSelection w s i c hInv hmem
      intro hmemold
      exact hsel ((i5 i).mpr hmemold)
  have hmm2 : Inv w (addSelectionRange w
      (if s.selected i = false then addSelection w s i c else s) c) := by
    by_cases hsel : s.selected i = false
    · rw [if_pos hsel]
      apply inv_addSelectionRange
      apply inv_addSelection w s i c hInv hmem
      intro hmemold
      rw [(i5 i).mpr hmemold] at hsel
      cases hsel
    · rw [if_neg hsel]
      exact inv_addSelectionRange w s c hInv
  match mm with
  | 0 => exact hdefault
  | 1 => exact hmm1
  | 2 => exact hmm2
  | n + 3 => exact hdefault

theorem inv_step (w : World) (s s2 : DragState) (hInv : Inv w s)
    (hstep : Step w s s2) : Inv w s2 := by
  cases hstep with
  | selectionThing c i mm hmem => exact inv_doSelectionThing w s c i mm hInv hmem
  | selectAllItems c a hact hown hlen => exact inv_selectAll w s c hInv hown
  | pointerDrop c sorted hkey hne hg =>
    exact inv_runDrop w _ (inv_setDrop w s c _ hInv hkey)
  | keyEnterDrop c o hkey hown hne =>
    exact inv_runDrop w _ (inv_setDropKeepSort w s c hInv hkey)
  | keySortDrop c o hkey hown =>
    exact inv_runDrop w _ (inv_setDrop w s c false hInv hkey)
  | dragLeaveSet t ht =>
    obtain ⟨i1, i2, i3, i4, i5, i6, i7, i8, i9, i10⟩ := hInv
    refine ⟨i1, i2, i3, i4, i5, i6, i7, i8, i9, ?_⟩
    intro c2 hc2
    have hc2b : t = some c2 := hc2
    rcases ht with ht | ⟨c3, ht3, hk3, _⟩
    · rw [ht] at hc2b
      cases hc2b
    · rw [ht3] at hc2b
      cases Option.some.inj hc2b
      exact hk3
  | nativeDrop sorted =>
    exact inv_runDrop w _ (inv_nativeDropPrep w s sorted hInv)
  | clearAll => exact inv_clearSelections w s hInv
  | navUpdate c i => exact inv_activeUpdate w s c i hInv

theorem inv_init (w : World) (cs : List (Cid × List Iid))
    (hwf : WellFormedCollection cs) : Inv w (initState cs) := by
  obtain ⟨hwf1, hwf2⟩ := hwf
  have hpw : ∀ e ∈ cs, ∀ e2 ∈ cs, e ≠ e2 →
      e.1 = e2.1 ∨ ∀ i, ¬(i ∈ e.2 ∧ i ∈ e2.2) := by
    have h2 : cs.Pairwise (fun e e2 => e.1 = e2.1 ∨ ∀ i, ¬(i ∈ e.2 ∧ i ∈ e2.2)) :=
      hwf2.imp (fun h => h.imp_right (fun hh i hii => hh i hii.1 hii.2))
    have hsym : Symmetric (fun (e e2 : Cid × List Iid) =>
        e.1 = e2.1 ∨ ∀ i, ¬(i ∈ e.2 ∧ i ∈ e2.2)) := by
      intro e e2 h
      rcases h with h | h
      · exact Or.inl h.symm
      · exact Or.inr (fun i hii => h i ⟨hii.2, hii.1⟩)
    exact fun e he e2 he2 hne => h2.forall hsym he he2 hne
  have hitems : ∀ c, itemsOf (initState cs) c = (List.lookup c cs).getD [] :=
    fun c => rfl
  refine ⟨?_, ?_, ?_, ?_, ?_, ?_, ?_, ?_, ?_, ?_⟩
  · exact iff_of_true rfl rfl
  · intro o ho
    have hno : (none : Option Cid) = some o := ho
    cases hno
  · exact List.nodup_nil
  · intro x hx
    cases hx
  · intro j
    exact iff_of_false Bool.false_ne_true (List.not_mem_nil j)
  · intro c
    rw [hitems c]
    cases hl : List.lookup c cs with
    | none => exact List.nodup_nil
    | some v => exact hwf1 (c, v) (lookup_mem hl)
  · intro c c2 hne x hx hx2
    cases hl : List.lookup c cs with
    | none =>
      rw [hitems c, hl] at hx
      cases hx
    | some v =>
      cases hl2 : List.lookup c2 cs with
      | none =>
        rw [hitems c2, hl2] at hx2
        cases hx2
      | some v2 =>
        rw [hitems c, hl] at hx
        rw [hitems c2, hl2] at hx2
        have hv : (c, v) ∈ cs := lookup_mem hl
        have hv2 : (c2, v2) ∈ cs := lookup_mem hl2
        have hnee : (c, v) ≠ (c2, v2) := by
          intro hh
          exact hne (congrArg Prod.fst hh)
        rcases hpw (c, v) hv (c2, v2) hv2 hnee with h | h
        · exact hne h
        · exact h x ⟨hx, hx2⟩
  · intro c hcne
    cases hl : List.lookup c cs with
    | none =>
      exfalso
      apply hcne
      rw [hitems c, hl]
      rfl
    | some v =>
      cases v with
      | nil =>
        exfalso
        apply hcne
        rw [hitems c, hl]
        rfl
      | cons a t =>
        refine ⟨a, ?_, ?_⟩
        · show ((List.lookup c cs).getD []).head? = some a
          rw [hl]
          rfl
        · rw [hitems c, hl]
          exact List.mem_cons_self a t
  · intro c hcne
    cases hl : List.lookup c cs with
    | none =>
      exfalso
      apply hcne
      rw [hitems c, hl]
      rfl
    | some v =>
      cases v with
      | nil =>
        exfalso
        apply hcne
        rw [hitems c, hl]
        rfl
      | cons a t =>
        refine ⟨a, ?_, ?_⟩
        · show ((List.lookup c cs).getD []).head? = some a
          rw [hl]
          rfl
        · rw [hitems c, hl]
          exact List.mem_cons_self a t
  · intro c hc
    have hno : (none : Option Cid) = some c := hc
    cases hno

theorem reachable_inv (w : World) (cs : List (Cid × List Iid)) (s : DragState)
    (hwf : WellFormedCollection cs) (hr : Reachable w (initState cs) s) :
    Inv w s := by
  have hr2 : Relation.ReflTransGen (Step w) (initState cs) s := hr
  clear hr
  induction hr2 with
  | refl => exact inv_init w cs hwf
  | tail hab hbc ih => exact inv_step w _ _ ih hbc

/-- C2: for every state of one widget instance reachable through the event-handler
transitions from the initial scan of a well-formed container collection, the selection
items array is non-empty exactly when the selection owner reference is set, and every
member of the selection items array belongs to the owner container's item list. -/
theorem selection_owner_invariant (w : World) (cs : List (Cid × List Iid))
    (s : DragState) (hwf : WellFormedCollection cs)
    (hr : Reachable w (initState cs) s) :
    (s.selection.dragitems ≠ [] ↔ s.selection.owner ≠ none) ∧
    (∀ o, s.selection.owner = some o →
      ∀ i ∈ s.selection.dragitems, i ∈ itemsOf s o) := by
  have h := reachable_inv w cs s hwf hr
  exact ⟨not_iff_not.mpr h.1, h.2.1⟩

/-- C2 witness: in the concrete two-container world, after one non-contiguous
selection of item 10 in container 0 from the initial state, the selection is non-empty
with an owner and every selected item sits in the owner's list. -/
theorem selection_owner_invariant_witness :
    WellFormedCollection csTransfer ∧
    (((doSelectionThing wAll (initState csTransfer) 0 10 1).selection.dragitems ≠ []
        ↔ (doSelectionThing wAll (initState csTransfer) 0 10 1).selection.owner ≠ none) ∧
      (∀ o, (doSelectionThing wAll (initState csTransfer) 0 10 1).selection.owner
          = some o →
        ∀ i ∈ (doSelectionThing wAll (initState csTransfer) 0 10 1).selection.dragitems,
          i ∈ itemsOf (doSelectionThing wAll (initState csTransfer) 0 10 1) o)) :=
  ⟨by unfold WellFormedCollection; decide,
    selection_owner_invariant wAll csTransfer
      (doSelectionThing wAll (initState csTransfer) 0 10 1)
      (by unfold WellFormedCollection; decide)
      (Relation.ReflTransGen.single
        (Step.selectionThing (initState csTransfer) 0 10 1 (by decide)))⟩

/-- C10: in every state of one widget instance reachable through the event-handler
transitions from the initial scan of a well-formed container collection, the selection
items array contains no duplicates — the operations that could re-add an already
selected item either filter it out first or consult its selected flag. -/
theorem selection_no_duplicates (w : World) (cs : List (Cid × List Iid))
    (s : DragState) (hwf : WellFormedCollection cs)
    (hr : Reachable w (initState cs) s) :
    s.selection.dragitems.Nodup :=
  (reachable_inv w cs s hwf hr).2.2.1

/-- C10 witness: after a select-all in container 0 of the concrete two-container
collection, the selection items array is duplicate-free. -/
theorem selection_no_duplicates_witness :
    WellFormedCollection csTransfer ∧
    (selectAllItemsOp wAll (initState csTransfer) 0).selection.dragitems.Nodup :=
  ⟨by unfold WellFormedCollection; decide,
    selection_no_duplicates wAll csTransfer
      (selectAllItemsOp wAll (initState csTransfer) 0)
      (by unfold WellFormedCollection; decide)
      (Relation.ReflTransGen.single
        (Step.selectAllItems (initState csTransfer) 0 10 (by decide) (Or.inl rfl)
          (by decide)))⟩

end DragAct
